import Mathlib

/-!
# recalbox-zapper: control plane of `rpi/blue2.c`

A shallow embedding of the command queue, the frame reassembler, the session
state machine, the calibration arithmetic and the pointer emission of
`src/rpi/blue2.c`, followed by the properties proved about them.

Conventions of the embedding:

* a byte (`char`, `uint8_t`) is a `Nat`; a `char[COMMAND_SIZE]` array is a
  `List Nat` of length 30;
* a `double` is a rational number: arithmetic is exact, there is no rounding,
  no infinity and no NaN (a division by zero is outside this arithmetic);
* `int` variables are `Int`; every value the program stores in them here is far
  from the limits of 32 bits, except the conversion of a double to `int`, which
  is modelled with its saturation;
* the side effects of the consumer thread (UI thread control, writes to the
  peripheral, writes to the uinput device, sleeps) are recorded as a list of
  `Effect` values, in program order. Log output (`PRINT`) is not recorded.
-/

namespace Zapper

/-! ## Constants -/

/-- The value of `#define COMMAND_SIZE 30U`. -/
def COMMAND_SIZE : Nat := 30

/-- The value of `const int INIT_SEQUENCE = 1`. -/
def INIT_SEQUENCE : Int := 1

/-- The value of `const int STAB_SEQUENCE = 2`. -/
def STAB_SEQUENCE : Int := 2

/-- The value of `const int CALIBRATION_SEQUENCE = 3`. -/
def CALIBRATION_SEQUENCE : Int := 3

/-- The value of `const int GAME_SEQUENCE = 4`. -/
def GAME_SEQUENCE : Int := 4

/-! ## C library functions on byte arrays -/

/-- The call `memset(p, 0, n)` on a fresh array of `n` bytes. -/
def zeros (n : Nat) : List Nat := List.replicate n 0

/-- The call `memcpy(dst + off, src, n)`: the `n` first bytes of `src` replace
the bytes `off .. off + n - 1` of `dst` (the caller keeps `off + n` within
`dst`). -/
def memcpy (dst : List Nat) (off : Nat) (src : List Nat) (n : Nat) : List Nat :=
  dst.take off ++ src.take n ++ dst.drop (off + n)

/-- The call `strncpy(dst, src, n)`, as the new content of `dst`: the bytes of
`src` up to the first NUL, then NUL bytes up to `n` bytes in all. -/
def strncpy : Nat → List Nat → List Nat
  | 0, _ => []
  | n + 1, [] => zeros (n + 1)
  | n + 1, c :: cs => if c = 0 then zeros (n + 1) else c :: strncpy n cs

/-! ## The command queue (`enqueue`, `dequeue`)

The singly linked list `node_t *` is the list of the `cmd` arrays of its nodes,
the node `*head` first. -/

/-- The function `enqueue(head, data, data_length)`. `malloc_ok` tells whether
`malloc` returned a node. -/
def enqueue (malloc_ok : Bool) (head : List (List Nat)) (data : List Nat)
    (data_length : Nat) : List (List Nat) :=
  if !malloc_ok then head
  else memcpy (zeros COMMAND_SIZE) 0 data data_length :: head

/-- The function `dequeue(head, cmd)`: the new list and the new content of `cmd`.
The loop walks to the last node (`current->next == NULL`), copies its command
with `strncpy` and unlinks it; on the empty list nothing changes. -/
def dequeue : List (List Nat) → List Nat → List (List Nat) × List Nat
  | [], cmd => ([], cmd)
  | [current], _ => ([], strncpy COMMAND_SIZE current)
  | node :: next :: rest, cmd =>
      let r := dequeue (next :: rest) cmd
      (node :: r.1, r.2)

/-- An operation on the queue: the producer pushes `data` (with
`data_length` the length of `data`), or the consumer takes one command. -/
inductive QueueOp where
  | enq (data : List Nat)
  | deq
  deriving DecidableEq, Repr

/-- The queue together with the commands the consumer has observed so far. -/
structure QueueRun where
  m_queue : List (List Nat)
  observed : List (List Nat)
  deriving DecidableEq, Repr

/-- One operation. The consumer calls `dequeue` only when `m_queue != NULL`
(the test of the inner loop of `route_message`). -/
def queue_step (r : QueueRun) : QueueOp → QueueRun
  | QueueOp.enq data =>
      { r with m_queue := enqueue true r.m_queue data data.length }
  | QueueOp.deq =>
      match r.m_queue with
      | [] => r
      | node :: rest =>
          let d := dequeue (node :: rest) []
          { m_queue := d.1, observed := r.observed ++ [d.2] }

/-- A sequence of operations, from a given queue. -/
def queue_run (r : QueueRun) (ops : List QueueOp) : QueueRun :=
  ops.foldl queue_step r

/-- The payloads pushed by a sequence of operations, in push order. -/
def pushed : List QueueOp → List (List Nat)
  | [] => []
  | QueueOp.enq data :: ops => data :: pushed ops
  | QueueOp.deq :: ops => pushed ops

/-- A payload as a command array: the payload followed by NUL bytes up to
`COMMAND_SIZE` bytes. -/
def pad (data : List Nat) : List Nat :=
  data ++ zeros (COMMAND_SIZE - data.length)

/-- The payloads the FIFO law is about: at most 29 bytes, none of them NUL. -/
def payload_ok (data : List Nat) : Prop :=
  data.length ≤ 29 ∧ ∀ b ∈ data, b ≠ 0

/-! ## The frame reassembler (`ble_notification_cb`) -/

/-- The state the notification callback works on: its two static locals
`buffer` and `buf_length`, the queue `m_queue`, the flag `m_signaled` set by
`event()`, and the number of calls of `arm_timer()` so far. -/
structure Reassembler where
  buffer : List Nat
  buf_length : Nat
  m_queue : List (List Nat)
  m_signaled : Int
  timer_arms : Nat
  deriving DecidableEq, Repr

/-- The state at program start: `buffer` zeroed, `buf_length = 0`,
`m_queue = NULL`, `m_signaled = 0`. -/
def Reassembler.init : Reassembler :=
  { buffer := zeros COMMAND_SIZE, buf_length := 0, m_queue := [], m_signaled := 0,
    timer_arms := 0 }

/-- The function `ble_notification_cb(handle, data, data_length, user_data)`.
`data` is `none` for a NULL pointer, and `data_length` is the length of the
list. `data` is an array in memory, so `buf_length + data_length` does not wrap
around in `size_t`. -/
def ble_notification_cb (malloc_ok : Bool) (st : Reassembler) (data : Option (List Nat)) :
    Reassembler :=
  match data with
  | none => st
  | some d =>
      if 0 < d.length then
        if st.buf_length + d.length < COMMAND_SIZE then
          let buffer := memcpy st.buffer st.buf_length d d.length
          let buf_length := st.buf_length + d.length
          if 0 < buf_length ∧ buffer.getD (buf_length - 1) 0 = 59 then
            { buffer := zeros COMMAND_SIZE
              buf_length := 0
              m_queue := enqueue malloc_ok st.m_queue buffer buf_length
              m_signaled := 1
              timer_arms := st.timer_arms + 1 }
          else
            { st with buffer := buffer, buf_length := buf_length }
        else
          { st with buf_length := 0 }
      else st

/-- A sequence of notifications, each with a non-NULL `data`, `malloc`
succeeding. -/
def feed (st : Reassembler) (chunks : List (List Nat)) : Reassembler :=
  chunks.foldl (fun s d => ble_notification_cb true s (some d)) st

/-- The byte stream `A;C1 2 3;D4 5 6;`. -/
def stream_ACD : List Nat :=
  [65, 59, 67, 49, 32, 50, 32, 51, 59, 68, 52, 32, 53, 32, 54, 59]

/-- The frame `A;`. -/
def frame_A : List Nat := [65, 59]

/-- The frame `C1 2 3;`. -/
def frame_C : List Nat := [67, 49, 32, 50, 32, 51, 59]

/-- The frame `D4 5 6;`. -/
def frame_D : List Nat := [68, 52, 32, 53, 32, 54, 59]

/-- A frame as the wire format has it: at most 29 bytes, none of them NUL, the
last one the terminator `;` and no other one. -/
def frame_ok (f : List Nat) : Prop :=
  ∃ body : List Nat, f = body ++ [59] ∧ body.length ≤ 28 ∧ (∀ b ∈ body, b ≠ 59 ∧ b ≠ 0)

/-! ## The conversion `%lf` of `sscanf`

The C library is not part of the repository. The model follows the decimal form
of the subject sequence of `strtod`: white space, an optional sign, digits with
an optional fraction, an optional exponent. The hexadecimal form and the forms
`inf` and `nan` have no counterpart in rational arithmetic and are read as far
as their decimal beginning goes. -/

/-- The function `isspace` in the C locale. -/
def isspace (c : Nat) : Bool := c = 32 ∨ (9 ≤ c ∧ c ≤ 13)

/-- The function `isdigit`. -/
def isdigit (c : Nat) : Bool := 48 ≤ c ∧ c ≤ 57

/-- Skips leading white space. -/
def skip_spaces : List Nat → List Nat
  | [] => []
  | c :: cs => if isspace c then skip_spaces cs else c :: cs

/-- Reads decimal digits: the number read after `acc`, how many digits were
read after `n`, and the rest of the input. -/
def scan_digits : List Nat → Nat → Nat → Nat × Nat × List Nat
  | [], acc, n => (acc, n, [])
  | c :: cs, acc, n =>
      if isdigit c then scan_digits cs (10 * acc + (c - 48)) (n + 1) else (acc, n, c :: cs)

/-- Reads an optional sign: whether it was `-`, and the rest of the input. -/
def scan_sign : List Nat → Bool × List Nat
  | 45 :: cs => (true, cs)
  | 43 :: cs => (false, cs)
  | cs => (false, cs)

/-- Reads an optional exponent part `e`, sign, digits: the power of ten to
multiply with and the rest of the input, or `none` when an `e` is not followed
by a digit (the input item is then not a number and the conversion fails). -/
def scan_exponent : List Nat → Option (ℚ × List Nat)
  | [] => some (1, [])
  | c :: cs =>
      if c = 101 ∨ c = 69 then
        let sg := scan_sign cs
        let ex := scan_digits sg.2 0 0
        if ex.2.1 = 0 then none
        else some (if sg.1 then 1 / (10 : ℚ) ^ ex.1 else (10 : ℚ) ^ ex.1, ex.2.2)
      else some (1, c :: cs)

/-- One conversion `%lf`: the value and the rest of the input, or `none` on a
matching failure. -/
def scan_double (s : List Nat) : Option (ℚ × List Nat) :=
  let sg := scan_sign (skip_spaces s)
  let ip := scan_digits sg.2 0 0
  let fp := match ip.2.2 with
    | 46 :: cs => scan_digits cs 0 0
    | cs => (0, 0, cs)
  if ip.2.1 + fp.2.1 = 0 then none
  else
    match scan_exponent fp.2.2 with
    | none => none
    | some (p, rest) =>
        let m : ℚ := ((ip.1 : ℚ) + (fp.1 : ℚ) / (10 : ℚ) ^ fp.2.1) * p
        some (if sg.1 then -m else m, rest)

/-- The call `sscanf(s, "%lf %lf %lf", &yaw, &pitch, &roll)` on variables that
hold `0.0` before the call: the values of `yaw`, `pitch`, `roll` after it. The
conversions stop at the first one that fails. -/
def sscanf_lf3 (s : List Nat) : ℚ × ℚ × ℚ :=
  match scan_double s with
  | none => (0, 0, 0)
  | some (yaw, r1) =>
      match scan_double r1 with
      | none => (yaw, 0, 0)
      | some (pitch, r2) =>
          match scan_double r2 with
          | none => (yaw, pitch, 0)
          | some (roll, _) => (yaw, pitch, roll)

/-! ## The session state machine (`route_message` and the sequences) -/

/-- A side effect of the consumer thread. -/
inductive Effect where
  /-- The call `ihm_quit()`: an `SDL_QUIT` event is pushed to the UI thread. -/
  | ihm_quit
  /-- The call `pthread_join(thread_ihm, NULL)`. -/
  | pthread_join
  /-- The call `pthread_create(thread_ihm, NULL, ihm_loop, mode)`, with the
  value of `*mode` at the call. -/
  | pthread_create (mode : Int)
  /-- The call `sleep(seconds)`. -/
  | sleep (seconds : Nat)
  /-- The call `usleep(microseconds)`. -/
  | usleep (microseconds : Nat)
  /-- The call `ble_write(value_data)`. -/
  | ble_write (value_data : Nat)
  /-- The call `emit(fd, type, code, val)`: one event written to the uinput
  device. -/
  | emit (type code val : Int)
  /-- The call `SDL_PushEvent` of an `SDL_KEYDOWN` event with the key `sym`. -/
  | sdl_keydown (sym : Int)
  deriving DecidableEq, Repr

/-- Linux input event type `EV_SYN`. -/
def EV_SYN : Int := 0

/-- Linux input event type `EV_KEY`. -/
def EV_KEY : Int := 1

/-- Linux input event type `EV_ABS`. -/
def EV_ABS : Int := 3

/-- Linux input event code `SYN_REPORT`. -/
def SYN_REPORT : Int := 0

/-- Linux input event code `BTN_LEFT` (0x110). -/
def BTN_LEFT : Int := 272

/-- Linux input event code `ABS_X`. -/
def ABS_X : Int := 0

/-- Linux input event code `ABS_Y`. -/
def ABS_Y : Int := 1

/-- SDL key code `SDLK_0`. -/
def SDLK_0 : Int := 48

/-- The constant `UINT16_MAX`. -/
def UINT16_MAX : Int := 65535

/-- The constant `INT_MAX` of a 32-bit `int`. -/
def INT_MAX : Int := 2147483647

/-- The constant `INT_MIN` of a 32-bit `int`. -/
def INT_MIN : Int := -2147483648

/-- The variables of the consumer: the local `mode` of `route_message` and the
file-level statics of the calibration. `m_screen_width` and `m_screen_height`
are set by the UI thread and only read here. -/
structure Session where
  mode : Int
  m_calib_point : Int
  m_yaw : List ℚ
  m_pitch : List ℚ
  m_roll : List ℚ
  m_middle_x : ℚ
  m_left : ℚ
  m_right : ℚ
  m_middle_y : ℚ
  m_up : ℚ
  m_down : ℚ
  m_deg_to_pixel_x1 : ℚ
  m_deg_to_pixel_x2 : ℚ
  m_deg_to_pixel_y1 : ℚ
  m_deg_to_pixel_y2 : ℚ
  m_screen_width : Int
  m_screen_height : Int
  deriving DecidableEq, Repr

/-- The variables at program start, for a given screen size. -/
def Session.init (width height : Int) : Session :=
  { mode := 0, m_calib_point := 0
    m_yaw := List.replicate 9 0, m_pitch := List.replicate 9 0, m_roll := List.replicate 9 0
    m_middle_x := 0, m_left := 0, m_right := 0, m_middle_y := 0, m_up := 0, m_down := 0
    m_deg_to_pixel_x1 := 0, m_deg_to_pixel_x2 := 0
    m_deg_to_pixel_y1 := 0, m_deg_to_pixel_y2 := 0
    m_screen_width := width, m_screen_height := height }

/-- The read `a[i]` of a `double a[9]`. -/
def arr (a : List ℚ) (i : Nat) : ℚ := a.getD i 0

/-- The write `a[i] = v` of a `double a[9]` with an `int` index. The caller
tests `i < 9`; the index is never negative in the program, and a negative one
leaves the array as it is here. -/
def arr_set (a : List ℚ) (i : Int) (v : ℚ) : List ℚ :=
  if 0 ≤ i then a.set i.toNat v else a

/-- The function `average3(val1, val2, val3)`. -/
def average3 (val1 val2 val3 : ℚ) : ℚ :=
  let a := val1 + val2 + val3
  a / 3

/-- The function `init_sequence(thread_ihm, mode)`. -/
def init_sequence (s : Session) : Session × List Effect :=
  ({ s with mode := STAB_SEQUENCE },
   [Effect.pthread_create s.mode, Effect.sleep 5, Effect.ihm_quit, Effect.pthread_join,
    Effect.ble_write 90, Effect.pthread_create STAB_SEQUENCE])

/-- The function `stab_sequence(cmd, thread_ihm, mode)`. -/
def stab_sequence (s : Session) (_cmd : List Nat) : Session × List Effect :=
  ({ s with mode := CALIBRATION_SEQUENCE, m_calib_point := 0 },
   [Effect.ble_write 89, Effect.ihm_quit, Effect.pthread_join,
    Effect.pthread_create CALIBRATION_SEQUENCE])

/-- The assignments of lines 552 to 562 of `calibration_sequence`: the six
group means and the four slopes, from the stored samples and the screen size.
`m_screen_width/2 - 30` is computed on `int` and then converted. -/
def compute_model (s : Session) : Session :=
  let middle_x := average3 (arr s.m_yaw 3) (arr s.m_yaw 4) (arr s.m_yaw 5)
  let left := average3 (arr s.m_yaw 0) (arr s.m_yaw 1) (arr s.m_yaw 2)
  let right := average3 (arr s.m_yaw 6) (arr s.m_yaw 7) (arr s.m_yaw 8)
  let up := average3 (arr s.m_pitch 0) (arr s.m_pitch 5) (arr s.m_pitch 6)
  let middle_y := average3 (arr s.m_pitch 1) (arr s.m_pitch 4) (arr s.m_pitch 7)
  let down := average3 (arr s.m_pitch 2) (arr s.m_pitch 3) (arr s.m_pitch 8)
  { s with
    m_middle_x := middle_x, m_left := left, m_right := right
    m_up := up, m_middle_y := middle_y, m_down := down
    m_deg_to_pixel_x1 := ((Int.tdiv s.m_screen_width 2 - 30 : Int) : ℚ) / (middle_x - left)
    m_deg_to_pixel_x2 := ((Int.tdiv s.m_screen_width 2 - 30 : Int) : ℚ) / (right - middle_x)
    m_deg_to_pixel_y1 := ((Int.tdiv s.m_screen_height 2 - 30 : Int) : ℚ) / (middle_y - down)
    m_deg_to_pixel_y2 := ((Int.tdiv s.m_screen_height 2 - 30 : Int) : ℚ) / (up - middle_y) }

/-- The function `calibration_sequence(cmd, thread_ihm, mode)`. -/
def calibration_sequence (s : Session) (cmd : List Nat) : Session × List Effect :=
  if s.m_calib_point < 9 then
    let v := sscanf_lf3 (cmd.drop 1)
    let s1 := { s with
      m_yaw := arr_set s.m_yaw s.m_calib_point v.1
      m_pitch := arr_set s.m_pitch s.m_calib_point v.2.1
      m_roll := arr_set s.m_roll s.m_calib_point v.2.2 }
    if s1.m_calib_point = 8 then
      ({ compute_model s1 with m_calib_point := 0, mode := GAME_SEQUENCE },
       [Effect.ble_write 88, Effect.ihm_quit, Effect.pthread_join])
    else
      ({ s1 with m_calib_point := s1.m_calib_point + 1 },
       [Effect.sdl_keydown (SDLK_0 + (s1.m_calib_point + 1))])
  else
    ({ s with m_calib_point := 0 }, [])

/-- The conversion of a `double` to `int`: the fraction is dropped (rounding
toward zero). A value outside the range of `int` has no defined result in C;
the conversion instruction of the target saturates, and so does the model. -/
def double_to_int (q : ℚ) : Int :=
  let t : Int := if 0 ≤ q then ⌊q⌋ else ⌈q⌉
  max INT_MIN (min INT_MAX t)

/-- The local `pixel_x` of `angle_to_screen` after the first `if`. -/
def pixel_x (s : Session) (yaw : ℚ) : ℚ :=
  if yaw < s.m_middle_x then
    ((Int.tdiv s.m_screen_width 2 : Int) : ℚ) - (s.m_middle_x - yaw) * s.m_deg_to_pixel_x1
  else
    ((Int.tdiv s.m_screen_width 2 : Int) : ℚ) + (yaw - s.m_middle_x) * s.m_deg_to_pixel_x2

/-- The local `pixel_y` of `angle_to_screen` after the second `if`. -/
def pixel_y (s : Session) (pitch : ℚ) : ℚ :=
  if pitch < s.m_middle_y then
    ((Int.tdiv s.m_screen_height 2 : Int) : ℚ) + (s.m_middle_y - pitch) * s.m_deg_to_pixel_y1
  else
    ((Int.tdiv s.m_screen_height 2 : Int) : ℚ) - (pitch - s.m_middle_y) * s.m_deg_to_pixel_y2

/-- The two statements `if (*x < 0) *x = 0; if (*x > UINT16_MAX) *x = UINT16_MAX;`. -/
def clamp_u16 (v : Int) : Int :=
  let v1 := if v < 0 then 0 else v
  if v1 > UINT16_MAX then UINT16_MAX else v1

/-- The function `angle_to_screen(yaw, pitch, roll, x, y)`: the values stored
in `*x` and `*y`. -/
def angle_to_screen (s : Session) (yaw pitch _roll : ℚ) : Int × Int :=
  let x := double_to_int ((pixel_x s yaw / (s.m_screen_width : ℚ)) * (UINT16_MAX : ℚ))
  let y := double_to_int ((pixel_y s pitch / (s.m_screen_height : ℚ)) * (UINT16_MAX : ℚ))
  (clamp_u16 x, clamp_u16 y)

/-- The function `game_sequence(cmd, fd)`. -/
def game_sequence (s : Session) (cmd : List Nat) : List Effect :=
  let v := sscanf_lf3 (cmd.drop 1)
  let p := angle_to_screen s v.1 v.2.1 v.2.2
  [Effect.emit EV_KEY BTN_LEFT 1, Effect.emit EV_ABS ABS_X p.1, Effect.emit EV_ABS ABS_Y p.2,
   Effect.emit EV_SYN SYN_REPORT 0, Effect.usleep 20000,
   Effect.emit EV_KEY BTN_LEFT 0, Effect.emit EV_ABS ABS_X p.1, Effect.emit EV_ABS ABS_Y p.2,
   Effect.emit EV_SYN SYN_REPORT 0]

/-- The function `aim_sequence(cmd, fd)`. -/
def aim_sequence (s : Session) (cmd : List Nat) : List Effect :=
  let v := sscanf_lf3 (cmd.drop 1)
  let p := angle_to_screen s v.1 v.2.1 v.2.2
  [Effect.emit EV_ABS ABS_X p.1, Effect.emit EV_ABS ABS_Y p.2, Effect.emit EV_SYN SYN_REPORT 0]

/-- The body of the inner loop of `route_message` after `dequeue`: the dispatch
of the command `cmd` on `id = cmd[0]` and `mode`. -/
def route_command (s : Session) (cmd : List Nat) : Session × List Effect :=
  let id := cmd.getD 0 0
  if id = 65 then
    let stop := if s.mode ≠ 0 ∧ s.mode ≠ GAME_SEQUENCE
      then [Effect.ihm_quit, Effect.pthread_join] else []
    let r := init_sequence { s with mode := INIT_SEQUENCE }
    (r.1, stop ++ r.2)
  else if id = 66 ∧ s.mode = STAB_SEQUENCE then stab_sequence s cmd
  else if id = 67 ∧ s.mode = CALIBRATION_SEQUENCE then calibration_sequence s cmd
  else if id = 68 ∧ s.mode = GAME_SEQUENCE then (s, game_sequence s cmd)
  else if id = 69 ∧ s.mode = GAME_SEQUENCE then (s, aim_sequence s cmd)
  else (s, [])

/-- The commands `cmds` processed one after the other: the final variables and
all the effects, in order. -/
def route_commands (s : Session) : List (List Nat) → Session × List Effect
  | [] => (s, [])
  | cmd :: cmds =>
      let r := route_command s cmd
      let r2 := route_commands r.1 cmds
      (r2.1, r.2 ++ r2.2)

/-- The events written to the uinput device among a list of effects, as
`(type, code, value)`. -/
def pointer_events : List Effect → List (Int × Int × Int)
  | [] => []
  | Effect.emit t c v :: es => (t, c, v) :: pointer_events es
  | _ :: es => pointer_events es

/-- The sample `(yaw, pitch, roll)` a command carries after its id byte. -/
def sample_of (cmd : List Nat) : ℚ × ℚ × ℚ := sscanf_lf3 (cmd.drop 1)

/-- The commands the dispatch of `route_message` accepts nowhere or not in the
mode of `s`: an id other than `A` that is `B` outside `STAB_SEQUENCE`, `C`
outside `CALIBRATION_SEQUENCE`, `D` or `E` outside `GAME_SEQUENCE`, or none of
`A` to `E`. -/
def not_accepted (s : Session) (cmd : List Nat) : Prop :=
  cmd.getD 0 0 ≠ 65
    ∧ (cmd.getD 0 0 = 66 → s.mode ≠ STAB_SEQUENCE)
    ∧ (cmd.getD 0 0 = 67 → s.mode ≠ CALIBRATION_SEQUENCE)
    ∧ (cmd.getD 0 0 = 68 → s.mode ≠ GAME_SEQUENCE)
    ∧ (cmd.getD 0 0 = 69 → s.mode ≠ GAME_SEQUENCE)

/-- The array `a` after the values `vs` were written at the indices `j`,
`j + 1`, and so on. -/
def store_samples : List ℚ → Nat → List ℚ → List ℚ
  | a, _, [] => a
  | a, j, v :: vs => store_samples (a.set j v) (j + 1) vs

/-- The key event that shows calibration point `n`. -/
def show_point (n : Nat) : Effect := Effect.sdl_keydown (SDLK_0 + (n : Int))

/-- The variables at the start of a calibration cycle on a 1920 by 1080
screen: mode `CALIBRATION_SEQUENCE`, index 0. -/
def calib_start : Session :=
  { Session.init 1920 1080 with mode := CALIBRATION_SEQUENCE }

/-- The nine commands of a calibration on the grid with yaw -10, 0, 10 and
pitch 10, 0, -10, in the order the grouping of `calibration_sequence` expects:
`C-10 10 0;` `C-10 0 0;` `C-10 -10 0;` `C0 -10 0;` `C0 0 0;` `C0 10 0;`
`C10 10 0;` `C10 0 0;` `C10 -10 0;`. -/
def grid_cmds : List (List Nat) :=
  [pad [67, 45, 49, 48, 32, 49, 48, 32, 48, 59],
   pad [67, 45, 49, 48, 32, 48, 32, 48, 59],
   pad [67, 45, 49, 48, 32, 45, 49, 48, 32, 48, 59],
   pad [67, 48, 32, 45, 49, 48, 32, 48, 59],
   pad [67, 48, 32, 48, 32, 48, 59],
   pad [67, 48, 32, 49, 48, 32, 48, 59],
   pad [67, 49, 48, 32, 49, 48, 32, 48, 59],
   pad [67, 49, 48, 32, 48, 32, 48, 59],
   pad [67, 49, 48, 32, 45, 49, 48, 32, 48, 59]]

/-- The yaw of the sample of the `i`-th command (from 0) of `cmds`. -/
def yaw_of (cmds : List (List Nat)) (i : Nat) : ℚ :=
  ((cmds.map sample_of).getD i (0, 0, 0)).1

/-- The pitch of the sample of the `i`-th command (from 0) of `cmds`. -/
def pitch_of (cmds : List (List Nat)) (i : Nat) : ℚ :=
  ((cmds.map sample_of).getD i (0, 0, 0)).2.1

/-- The samples of the grid with yaw -10, 0, 10 and pitch 10, 0, -10, in the
order of the grouping of `calibration_sequence`. -/
def grid_samples : List (ℚ × ℚ × ℚ) :=
  [(-10, 10, 0), (-10, 0, 0), (-10, -10, 0), (0, -10, 0), (0, 0, 0), (0, 10, 0),
   (10, 10, 0), (10, 0, 0), (10, -10, 0)]

/-- A frame of exactly 30 bytes with its terminator: `C`, 28 times the digit
`1`, then `;`. -/
def frame_30 : List Nat := [67] ++ List.replicate 28 49 ++ [59]

/-- The effects of `init_sequence` in program order: the Init UI is started,
the thread sleeps 5 seconds, the Init UI is stopped and joined, the byte `Z` is
written, the Stabilizing UI is started. -/
def init_effects : List Effect :=
  [Effect.pthread_create INIT_SEQUENCE, Effect.sleep 5, Effect.ihm_quit, Effect.pthread_join,
   Effect.ble_write 90, Effect.pthread_create STAB_SEQUENCE]

/-- The invariant of the consumer: the calibration index is between 0 and 8,
the mode is one of 0, `INIT_SEQUENCE`, `STAB_SEQUENCE`, `CALIBRATION_SEQUENCE`,
`GAME_SEQUENCE`, and the three sample arrays have their nine elements. -/
def session_inv (s : Session) : Prop :=
  (0 ≤ s.m_calib_point ∧ s.m_calib_point ≤ 8)
    ∧ (s.mode = 0 ∨ s.mode = INIT_SEQUENCE ∨ s.mode = STAB_SEQUENCE
        ∨ s.mode = CALIBRATION_SEQUENCE ∨ s.mode = GAME_SEQUENCE)
    ∧ s.m_yaw.length = 9 ∧ s.m_pitch.length = 9 ∧ s.m_roll.length = 9

/-! ## Properties of the queue -/

theorem strncpy_append_zeros (data : List Nat) (h0 : ∀ b ∈ data, b ≠ 0) (k : Nat) :
    strncpy (data.length + k) (data ++ zeros k) = data ++ zeros k := by
  induction data with
  | nil =>
      cases k with
      | zero => rfl
      | succ k => simp [strncpy, zeros, List.replicate_succ]
  | cons b bs ih =>
      have hb : b ≠ 0 := h0 b (List.mem_cons_self _ _)
      have ih2 := ih (fun c hc => h0 c (List.mem_cons_of_mem _ hc))
      have e : (b :: bs).length + k = (bs.length + k) + 1 := by
        simp only [List.length_cons]; omega
      rw [e]
      simp only [List.cons_append, strncpy, hb, if_false]
      exact congrArg (List.cons b) ih2

theorem strncpy_pad (data : List Nat) (h : payload_ok data) :
    strncpy COMMAND_SIZE (pad data) = pad data := by
  have e : COMMAND_SIZE = data.length + (COMMAND_SIZE - data.length) := by
    have := h.1
    simp only [COMMAND_SIZE]; omega
  have key := strncpy_append_zeros data h.2 (COMMAND_SIZE - data.length)
  rw [← e] at key
  exact key

theorem enqueue_eq_pad (head : List (List Nat)) (data : List Nat) (h : payload_ok data) :
    enqueue true head data data.length = pad data :: head := by
  have hl := h.1
  simp only [enqueue, memcpy, pad, zeros, COMMAND_SIZE, Bool.not_true, Bool.false_eq_true,
    if_false, List.take_zero, List.nil_append, Nat.zero_add, List.take_length,
    List.drop_replicate]

theorem dequeue_append_singleton (q : List (List Nat)) (x cmd : List Nat) :
    dequeue (q ++ [x]) cmd = (q, strncpy COMMAND_SIZE x) := by
  induction q with
  | nil => rfl
  | cons a q ih =>
      cases q with
      | nil => rfl
      | cons b q =>
          simp only [List.cons_append] at ih ⊢
          simp only [dequeue, ih]

theorem pushed_append (ops1 ops2 : List QueueOp) :
    pushed (ops1 ++ ops2) = pushed ops1 ++ pushed ops2 := by
  induction ops1 with
  | nil => rfl
  | cons op ops ih =>
      cases op with
      | enq d => simp [pushed, ih]
      | deq => simp [pushed, ih]


/-- The invariant behind the FIFO law: from any queue whose nodes hold padded
payloads, the commands observed so far followed by the queue read from its last
node to its first are extended by the padded payloads pushed, in push order. -/
theorem queue_run_invariant (ops : List QueueOp) :
    ∀ r : QueueRun, (∀ n ∈ r.m_queue, strncpy COMMAND_SIZE n = n) →
      (∀ d, QueueOp.enq d ∈ ops → payload_ok d) →
      (queue_run r ops).observed ++ (queue_run r ops).m_queue.reverse
        = r.observed ++ r.m_queue.reverse ++ (pushed ops).map pad := by
  induction ops with
  | nil => intro r _ _; simp [queue_run, pushed]
  | cons op ops ih =>
      intro r hq hp
      have hp2 : ∀ d, QueueOp.enq d ∈ ops → payload_ok d :=
        fun d hd => hp d (List.mem_cons_of_mem _ hd)
      have hrun : queue_run r (op :: ops) = queue_run (queue_step r op) ops := rfl
      rw [hrun]
      cases op with
      | enq d =>
          have hd : payload_ok d := hp d (List.mem_cons_self _ _)
          have hs : queue_step r (QueueOp.enq d)
              = { r with m_queue := pad d :: r.m_queue } := by
            simp only [queue_step, enqueue_eq_pad _ _ hd]
          rw [hs, ih _ _ hp2]
          · simp [pushed]
          · intro n hn
            rcases List.mem_cons.mp hn with h1 | h1
            · rw [h1]; exact strncpy_pad d hd
            · exact hq n h1
      | deq =>
          rcases List.eq_nil_or_concat r.m_queue with hnil | ⟨q, x, hqx⟩
          on_goal 2 => rw [List.concat_eq_append] at hqx
          · have hs : queue_step r QueueOp.deq = r := by
              simp only [queue_step, hnil]
            rw [hs, ih r hq hp2]
            simp [pushed]
          · have hx : strncpy COMMAND_SIZE x = x := hq x (by rw [hqx]; simp)
            have hs : queue_step r QueueOp.deq
                = { m_queue := q, observed := r.observed ++ [x] } := by
              have hne : r.m_queue ≠ [] := by rw [hqx]; simp
              cases hm : r.m_queue with
              | nil => exact absurd hm hne
              | cons a rest =>
                  have e : a :: rest = q ++ [x] := by rw [← hm, hqx]
                  simp only [queue_step, hm]
                  rw [e, dequeue_append_singleton, hx]
            rw [hs, ih _ _ hp2]
            · simp [pushed, hqx]
            · intro n hn
              have hn2 : n ∈ q := hn
              exact hq n (by rw [hqx]; exact List.mem_append_left _ hn2)

/-- C1. FIFO law of the command queue: for every sequence of `enqueue` and
`dequeue` operations from the empty queue, with `malloc` succeeding and every
payload at most 29 bytes without a NUL byte, the commands handed to the consumer
followed by the commands still queued (oldest first) are exactly the pushed
payloads in push order, each as a NUL-padded command array; so the k-th
`dequeue` on a non-empty queue returns the payload of the k-th `enqueue`. -/
theorem fifo_law (ops : List QueueOp) (h : ∀ d, QueueOp.enq d ∈ ops → payload_ok d) :
    (pushed ops).map pad
        = (queue_run ⟨[], []⟩ ops).observed ++ (queue_run ⟨[], []⟩ ops).m_queue.reverse
      ∧ ∀ k, k < (queue_run ⟨[], []⟩ ops).observed.length →
          (queue_run ⟨[], []⟩ ops).observed[k]? = ((pushed ops)[k]?).map pad := by
  have inv := queue_run_invariant ops ⟨[], []⟩ (by intro n hn; cases hn) h
  simp only [List.reverse_nil, List.append_nil, List.nil_append] at inv
  refine ⟨inv.symm, ?_⟩
  intro k hk
  rw [← List.getElem?_map, ← inv, List.getElem?_append_left hk]

/-- C1, an instance: three pushes interleaved with four takes. -/
theorem fifo_law_witness :
    (∀ d, QueueOp.enq d ∈ [QueueOp.enq [67, 49], QueueOp.enq [65], QueueOp.deq,
        QueueOp.enq [68, 52, 59], QueueOp.deq, QueueOp.deq, QueueOp.deq] → payload_ok d)
    ∧ (queue_run ⟨[], []⟩ [QueueOp.enq [67, 49], QueueOp.enq [65], QueueOp.deq,
        QueueOp.enq [68, 52, 59], QueueOp.deq, QueueOp.deq, QueueOp.deq]).observed
      = [pad [67, 49], pad [65], pad [68, 52, 59]] := by
  have hp : ∀ d, QueueOp.enq d ∈ [QueueOp.enq [67, 49], QueueOp.enq [65], QueueOp.deq,
      QueueOp.enq [68, 52, 59], QueueOp.deq, QueueOp.deq, QueueOp.deq] → payload_ok d := by
    intro d hd
    simp only [List.mem_cons, QueueOp.enq.injEq, List.mem_singleton, reduceCtorEq,
      or_false, false_or, List.not_mem_nil] at hd
    rcases hd with h1 | h1 | h1 <;> subst h1 <;> exact ⟨by decide, by decide⟩
  refine ⟨hp, ?_⟩
  have key := (fifo_law _ hp).1
  have hq : (queue_run ⟨[], []⟩ [QueueOp.enq [67, 49], QueueOp.enq [65], QueueOp.deq,
      QueueOp.enq [68, 52, 59], QueueOp.deq, QueueOp.deq, QueueOp.deq]).m_queue = [] := by
    decide
  rw [hq] at key
  simpa [pushed] using key.symm

/-! ## Properties of the frame reassembler -/

theorem getD_last_of_append (a d r : List Nat) (hd : d ≠ []) :
    (a ++ d ++ r).getD (a.length + d.length - 1) 0 = d.getLast hd := by
  rcases List.eq_nil_or_concat d with hnil | ⟨d2, l, hdl⟩
  · exact absurd hnil hd
  · subst hdl
    have e : a ++ d2.concat l ++ r = (a ++ d2) ++ l :: r := by simp
    have hlen : (a ++ d2).length = a.length + (d2.concat l).length - 1 := by simp
    have hlt : a.length + (d2.concat l).length - 1 < (a ++ d2.concat l ++ r).length := by
      simp
    have h1 : (a ++ d2.concat l ++ r)[a.length + (d2.concat l).length - 1] = l :=
      List.getElem_of_append e hlen
    rw [List.getD_eq_getElem?_getD, List.getElem?_eq_getElem hlt, h1]
    simp

theorem cb_overflow (malloc_ok : Bool) (st : Reassembler) (d : List Nat) (hd : d ≠ [])
    (hov : COMMAND_SIZE ≤ st.buf_length + d.length) :
    ble_notification_cb malloc_ok st (some d) = { st with buf_length := 0 } := by
  have hpos : 0 < d.length := List.length_pos.mpr hd
  have hnlt : ¬ (st.buf_length + d.length < COMMAND_SIZE) := by omega
  simp only [ble_notification_cb, hpos, hnlt, if_true, if_false]

theorem cb_append_open (st : Reassembler) (d : List Nat) (hd : d ≠ [])
    (hb : st.buf_length ≤ st.buffer.length)
    (hfit : st.buf_length + d.length < COMMAND_SIZE) (hlast : d.getLast hd ≠ 59) :
    ble_notification_cb true st (some d)
      = { st with buffer := memcpy st.buffer st.buf_length d d.length,
                  buf_length := st.buf_length + d.length } := by
  have hpos : 0 < d.length := List.length_pos.mpr hd
  have hg : (memcpy st.buffer st.buf_length d d.length).getD (st.buf_length + d.length - 1) 0
      = d.getLast hd := by
    have := getD_last_of_append (st.buffer.take st.buf_length) d
      (st.buffer.drop (st.buf_length + d.length)) hd
    simpa [memcpy, List.length_take, Nat.min_eq_left hb] using this
  simp only [ble_notification_cb, hpos, hfit, if_true, hg, hlast, and_false, if_false]

theorem cb_append_close (st : Reassembler) (d : List Nat) (hd : d ≠ [])
    (hb : st.buf_length ≤ st.buffer.length)
    (hfit : st.buf_length + d.length < COMMAND_SIZE) (hlast : d.getLast hd = 59) :
    ble_notification_cb true st (some d)
      = { buffer := zeros COMMAND_SIZE, buf_length := 0,
          m_queue := pad (st.buffer.take st.buf_length ++ d) :: st.m_queue,
          m_signaled := 1, timer_arms := st.timer_arms + 1 } := by
  have hpos : 0 < d.length := List.length_pos.mpr hd
  have hpos2 : 0 < st.buf_length + d.length := by omega
  have hg : (memcpy st.buffer st.buf_length d d.length).getD (st.buf_length + d.length - 1) 0
      = d.getLast hd := by
    have := getD_last_of_append (st.buffer.take st.buf_length) d
      (st.buffer.drop (st.buf_length + d.length)) hd
    simpa [memcpy, List.length_take, Nat.min_eq_left hb] using this
  have hq : enqueue true st.m_queue (memcpy st.buffer st.buf_length d d.length)
      (st.buf_length + d.length) = pad (st.buffer.take st.buf_length ++ d) :: st.m_queue := by
    simp only [enqueue, memcpy, pad, zeros, Bool.not_true, Bool.false_eq_true, if_false,
      List.take_zero, List.nil_append, Nat.zero_add, List.take_length, List.drop_replicate]
    have hl : (st.buffer.take st.buf_length ++ d).length = st.buf_length + d.length := by
      simp [List.length_take, Nat.min_eq_left hb]
    have ht : List.take (st.buf_length + d.length)
        (List.take st.buf_length st.buffer ++ d ++ List.drop (st.buf_length + d.length) st.buffer)
        = List.take st.buf_length st.buffer ++ d := List.take_left' hl
    rw [ht, hl]
  simp only [ble_notification_cb, hpos, hfit, if_true, hg, hlast, hpos2, and_self, hq]

/-- The state after a frame was completed from the state `st`. -/
theorem feed_frame (chunks : List (List Nat)) :
    ∀ st : Reassembler, st.buffer.length = COMMAND_SIZE →
      st.buf_length ≤ st.buffer.length → chunks ≠ [] →
      (∀ c ∈ chunks, c ≠ []) → frame_ok (st.buffer.take st.buf_length ++ chunks.flatten) →
      feed st chunks
        = { buffer := zeros COMMAND_SIZE, buf_length := 0,
            m_queue := pad (st.buffer.take st.buf_length ++ chunks.flatten) :: st.m_queue,
            m_signaled := 1, timer_arms := st.timer_arms + 1 } := by
  induction chunks with
  | nil => intro st _ _ h; exact absurd rfl h
  | cons c cs ih =>
      intro st hbuf hb _ hne hf
      obtain ⟨body, hbody, hlen, hby⟩ := hf
      have hc : c ≠ [] := hne c (List.mem_cons_self _ _)
      have hcs : ∀ x ∈ cs, x ≠ [] := fun x hx => hne x (List.mem_cons_of_mem _ hx)
      have htl : (st.buffer.take st.buf_length).length = st.buf_length := by
        simp [List.length_take, Nat.min_eq_left hb]
      have hjoin : (c :: cs).flatten = c ++ cs.flatten := rfl
      rw [hjoin] at hbody ⊢
      have hlen2 : st.buf_length + c.length + cs.flatten.length = body.length + 1 := by
        have := congrArg List.length hbody
        simp only [List.length_append, htl, List.length_singleton] at this
        omega
      have hfit : st.buf_length + c.length < COMMAND_SIZE := by
        simp only [COMMAND_SIZE]; omega
      have hfeed : feed st (c :: cs) = feed (ble_notification_cb true st (some c)) cs := rfl
      rw [hfeed]
      cases cs with
      | nil =>
          have hlast : c.getLast hc = 59 := by
            have h1 : (st.buffer.take st.buf_length ++ (c ++ [].flatten)).getLast? = some 59 := by
              rw [hbody]; simp
            simpa [List.getLast?_append, List.getLast?_eq_getLast _ hc] using h1
          rw [cb_append_close st c hc hb hfit hlast]
          simp [feed]
      | cons c2 cs2 =>
          have hj : (c2 :: cs2).flatten ≠ [] := by
            have hc2 : c2 ≠ [] := hcs c2 (List.mem_cons_self _ _)
            intro h0
            have : c2 ++ cs2.flatten = [] := h0
            exact hc2 (List.append_eq_nil.mp this).1
          rcases List.eq_nil_or_concat ((c2 :: cs2).flatten) with hnil | ⟨j2, l, hjl⟩
          · exact absurd hnil hj
          · rw [List.concat_eq_append] at hjl
            have hb2 : body = st.buffer.take st.buf_length ++ c ++ j2 := by
              have e : (st.buffer.take st.buf_length ++ c ++ j2) ++ [l] = body ++ [59] := by
                rw [← hbody, hjl]; simp
              exact (List.append_inj' e rfl).1.symm
            have hlast : c.getLast hc ≠ 59 := by
              have hm : c.getLast hc ∈ body := by
                rw [hb2]
                exact List.mem_append_left _ (List.mem_append_right _ (List.getLast_mem hc))
              exact (hby _ hm).1
            rw [cb_append_open st c hc hb hfit hlast]
            have hbuflen : (memcpy st.buffer st.buf_length c c.length).length
                = COMMAND_SIZE := by
              simp only [memcpy, List.length_append, List.length_take, List.length_drop, hbuf]
                at hfit ⊢
              simp only [COMMAND_SIZE] at hfit ⊢
              omega
            have htake : (memcpy st.buffer st.buf_length c c.length).take
                (st.buf_length + c.length) = st.buffer.take st.buf_length ++ c := by
              have hl : (st.buffer.take st.buf_length ++ c).length
                  = st.buf_length + c.length := by
                simp [List.length_take, Nat.min_eq_left hb]
              simp only [memcpy, List.take_length]
              exact List.take_left' hl
            have key := ih
              { st with buffer := memcpy st.buffer st.buf_length c c.length,
                        buf_length := st.buf_length + c.length }
              hbuflen (by simp only [hbuflen]; omega) (by simp) hcs
              (by
                simp only [htake]
                exact ⟨body, by rw [← hbody, List.append_assoc], hlen, hby⟩)
            rw [key]
            simp only [htake, List.append_assoc]

theorem feed_append (st : Reassembler) (a b : List (List Nat)) :
    feed st (a ++ b) = feed (feed st a) b := by
  simp only [feed, List.foldl_append]

/-- A whole frame, delivered in any non-empty chunks to a reassembler whose
`buf_length` is 0, is pushed as one command. -/
theorem feed_frame_clean (st : Reassembler) (chunks : List (List Nat)) (f : List Nat)
    (hbuf : st.buffer.length = COMMAND_SIZE) (h0 : st.buf_length = 0)
    (hne : ∀ c ∈ chunks, c ≠ []) (hj : chunks.flatten = f) (hf : frame_ok f) :
    feed st chunks
      = { buffer := zeros COMMAND_SIZE, buf_length := 0, m_queue := pad f :: st.m_queue,
          m_signaled := 1, timer_arms := st.timer_arms + 1 } := by
  have hch : chunks ≠ [] := by
    intro h
    obtain ⟨body, hb, _, _⟩ := hf
    rw [h] at hj
    rw [← hj] at hb
    simp at hb
  have key := feed_frame chunks st hbuf (by rw [h0]; exact Nat.zero_le _) hch hne
    (by rw [h0, List.take_zero, List.nil_append, hj]; exact hf)
  rw [key, h0, List.take_zero, List.nil_append, hj]

theorem frame_A_ok : frame_ok frame_A := ⟨[65], rfl, by decide, by decide⟩

theorem frame_C_ok : frame_ok frame_C := ⟨[67, 49, 32, 50, 32, 51], rfl, by decide, by decide⟩

theorem frame_D_ok : frame_ok frame_D := ⟨[68, 52, 32, 53, 32, 54], rfl, by decide, by decide⟩

theorem sample_of_frame_C : sample_of (pad frame_C) = (1, 2, 3) := by
  norm_num [sample_of, pad, frame_C, zeros, COMMAND_SIZE, sscanf_lf3, scan_double,
    scan_exponent, scan_digits, scan_sign, skip_spaces, isspace, isdigit]

theorem sample_of_frame_D : sample_of (pad frame_D) = (4, 5, 6) := by
  norm_num [sample_of, pad, frame_D, zeros, COMMAND_SIZE, sscanf_lf3, scan_double,
    scan_exponent, scan_digits, scan_sign, skip_spaces, isspace, isdigit]


/-- C2 as stated fails: the stream `A;C1 2 3;D4 5 6;` delivered as one
notification is pushed as one single command of 16 bytes, not as three. -/
theorem reassembly_single_notification_one_command :
    (∀ c ∈ [stream_ACD], c ≠ []) ∧ [stream_ACD].flatten = stream_ACD
      ∧ (feed Reassembler.init [stream_ACD]).m_queue = [pad stream_ACD]
      ∧ (feed Reassembler.init [stream_ACD]).m_queue.reverse
          ≠ [pad frame_A, pad frame_C, pad frame_D] := by
  decide

/-- C2, amended. Frame reassembly for notifications aligned on frames: from the
initial state, when the stream `A;C1 2 3;D4 5 6;` arrives in non-empty chunks
such that each terminator `;` is the last byte of a chunk (chunks of `A;`, then
chunks of `C1 2 3;`, then chunks of `D4 5 6;`), exactly three commands are
queued, in order `A;`, `C1 2 3;`, `D4 5 6;`, the buffer is left empty, and the
consumer takes them in that order: id `A`, id `C` with sample (1, 2, 3), id `D`
with sample (4, 5, 6). -/
theorem reassembly_aligned_chunks (cs1 cs2 cs3 : List (List Nat))
    (h1 : cs1.flatten = frame_A) (h2 : cs2.flatten = frame_C) (h3 : cs3.flatten = frame_D)
    (hne : ∀ c ∈ cs1 ++ cs2 ++ cs3, c ≠ []) :
    (cs1 ++ cs2 ++ cs3).flatten = stream_ACD
      ∧ (feed Reassembler.init (cs1 ++ cs2 ++ cs3)).m_queue.reverse
          = [pad frame_A, pad frame_C, pad frame_D]
      ∧ (feed Reassembler.init (cs1 ++ cs2 ++ cs3)).buf_length = 0
      ∧ (queue_run ⟨(feed Reassembler.init (cs1 ++ cs2 ++ cs3)).m_queue, []⟩
            [QueueOp.deq, QueueOp.deq, QueueOp.deq]).observed
          = [pad frame_A, pad frame_C, pad frame_D]
      ∧ (pad frame_A).getD 0 0 = 65
      ∧ ((pad frame_C).getD 0 0 = 67 ∧ sample_of (pad frame_C) = (1, 2, 3))
      ∧ ((pad frame_D).getD 0 0 = 68 ∧ sample_of (pad frame_D) = (4, 5, 6)) := by
  have hn1 : ∀ c ∈ cs1, c ≠ [] := fun c hc =>
    hne c (List.mem_append_left _ (List.mem_append_left _ hc))
  have hn2 : ∀ c ∈ cs2, c ≠ [] := fun c hc =>
    hne c (List.mem_append_left _ (List.mem_append_right _ hc))
  have hn3 : ∀ c ∈ cs3, c ≠ [] := fun c hc => hne c (List.mem_append_right _ hc)
  have e1 := feed_frame_clean Reassembler.init cs1 frame_A rfl rfl hn1 h1 frame_A_ok
  have e2 := feed_frame_clean (feed Reassembler.init cs1) cs2 frame_C
    (by rw [e1]; rfl) (by rw [e1]) hn2 h2 frame_C_ok
  have e3 := feed_frame_clean (feed (feed Reassembler.init cs1) cs2) cs3 frame_D
    (by rw [e2]; rfl) (by rw [e2]) hn3 h3 frame_D_ok
  have e : feed Reassembler.init (cs1 ++ cs2 ++ cs3)
      = { buffer := zeros COMMAND_SIZE, buf_length := 0,
          m_queue := [pad frame_D, pad frame_C, pad frame_A],
          m_signaled := 1, timer_arms := 3 } := by
    rw [feed_append, feed_append, e3, e2, e1]
    rfl
  refine ⟨?_, ?_, ?_, ?_, ?_, ⟨?_, sample_of_frame_C⟩, ⟨?_, sample_of_frame_D⟩⟩
  · rw [List.flatten_append, List.flatten_append, h1, h2, h3]; rfl
  · rw [e]; rfl
  · rw [e]
  · rw [e]; decide
  · decide
  · decide
  · decide

/-- C2, amended, an instance: the stream in five chunks, `A` `;` `C1 ` `2 3;`
`D4 5 6;`. -/
theorem reassembly_aligned_chunks_witness :
    (feed Reassembler.init
        ([[65], [59]] ++ [[67, 49, 32], [50, 32, 51, 59]] ++ [frame_D])).m_queue.reverse
      = [pad frame_A, pad frame_C, pad frame_D] :=
  (reassembly_aligned_chunks [[65], [59]] [[67, 49, 32], [50, 32, 51, 59]] [frame_D]
    (by decide) (by decide) (by decide) (by decide)).2.1

/-- C3. Overflow resync: when `n` bytes are accumulated and a notification of
`m > 0` bytes arrives with `n + m >= 30`, whatever its bytes, the call only sets
`buf_length` to 0: nothing is queued, the incoming bytes are not copied, the
consumer is not signalled and the timer is not re-armed. A well-formed frame
delivered next, in any non-empty chunks, is then queued as one command made of
its bytes alone. In particular 29 bytes without terminator followed by one more
byte leave the queue empty and `buf_length = 0`. -/
theorem overflow_resync (malloc_ok : Bool) (st : Reassembler) (d : List Nat) (hd : d ≠ [])
    (hov : COMMAND_SIZE ≤ st.buf_length + d.length) :
    ble_notification_cb malloc_ok st (some d) = { st with buf_length := 0 }
      ∧ (st.buffer.length = COMMAND_SIZE →
          ∀ (chunks : List (List Nat)) (f : List Nat), (∀ c ∈ chunks, c ≠ []) →
            chunks.flatten = f → frame_ok f →
            feed (ble_notification_cb malloc_ok st (some d)) chunks
              = { buffer := zeros COMMAND_SIZE, buf_length := 0, m_queue := pad f :: st.m_queue,
                  m_signaled := 1, timer_arms := st.timer_arms + 1 })
      ∧ (∀ (d29 : List Nat) (b : Nat), d29.length = 29 → (∀ x ∈ d29, x ≠ 59) →
          (feed Reassembler.init [d29, [b]]).m_queue = []
            ∧ (feed Reassembler.init [d29, [b]]).buf_length = 0) := by
  have h1 := cb_overflow malloc_ok st d hd hov
  refine ⟨h1, ?_, ?_⟩
  · intro hbuf chunks f hne hj hf
    rw [h1]
    exact feed_frame_clean { st with buf_length := 0 } chunks f hbuf rfl hne hj hf
  · intro d29 b hl hx
    have hne : d29 ≠ [] := by
      intro h; rw [h] at hl; simp at hl
    have hlast : d29.getLast hne ≠ 59 := hx _ (List.getLast_mem hne)
    have s1 : feed Reassembler.init [d29, [b]]
        = ble_notification_cb true (ble_notification_cb true Reassembler.init (some d29))
            (some [b]) := rfl
    have a1 := cb_append_open Reassembler.init d29 hne (Nat.zero_le _)
      (by rw [hl]; decide) hlast
    rw [s1, a1]
    have a2 := cb_overflow true
      { Reassembler.init with
        buffer := memcpy Reassembler.init.buffer Reassembler.init.buf_length d29 d29.length,
        buf_length := Reassembler.init.buf_length + d29.length } [b] (by simp)
      (by simp [hl, Reassembler.init, COMMAND_SIZE])
    rw [a2]
    exact ⟨rfl, rfl⟩

/-- C3, an instance: 25 bytes accumulated, then a notification of 5 bytes that
ends with the terminator. -/
theorem overflow_resync_witness :
    ble_notification_cb true
        { buffer := List.replicate 25 49 ++ zeros 5, buf_length := 25, m_queue := [pad frame_A],
          m_signaled := 0, timer_arms := 1 } (some [50, 50, 50, 50, 59])
      = { buffer := List.replicate 25 49 ++ zeros 5, buf_length := 0, m_queue := [pad frame_A],
          m_signaled := 0, timer_arms := 1 } :=
  (overflow_resync true
    { buffer := List.replicate 25 49 ++ zeros 5, buf_length := 25, m_queue := [pad frame_A],
      m_signaled := 0, timer_arms := 1 } [50, 50, 50, 50, 59] (by decide) (by decide)).1


/-! ## Properties of the session state machine -/

/-- C4. Mode gating: a command that the current mode does not accept (id `B`
outside Stabilizing, `C` outside Calibrating, `D` or `E` outside Playing, or an
id that is none of `A` to `E`) leaves every variable of the session unchanged
(mode, calibration index, stored samples, calibration model) and has no effect
at all: no pointer event, no write to the peripheral, no UI action. -/
theorem mode_gating (s : Session) (cmd : List Nat) (h : not_accepted s cmd) :
    route_command s cmd = (s, []) := by
  obtain ⟨hA, hB, hC, hD, hE⟩ := h
  have nB : ¬ (cmd.getD 0 0 = 66 ∧ s.mode = STAB_SEQUENCE) := fun hh => hB hh.1 hh.2
  have nC : ¬ (cmd.getD 0 0 = 67 ∧ s.mode = CALIBRATION_SEQUENCE) := fun hh => hC hh.1 hh.2
  have nD : ¬ (cmd.getD 0 0 = 68 ∧ s.mode = GAME_SEQUENCE) := fun hh => hD hh.1 hh.2
  have nE : ¬ (cmd.getD 0 0 = 69 ∧ s.mode = GAME_SEQUENCE) := fun hh => hE hh.1 hh.2
  simp only [route_command, hA, nB, nC, nD, nE, if_false]

/-- C4, an instance: the command `D4 5 6;` (FireEvent) while the mode is
Calibrating, two samples in, changes nothing and emits nothing. -/
theorem mode_gating_witness :
    route_command { Session.init 1920 1080 with mode := CALIBRATION_SEQUENCE, m_calib_point := 2 }
        (pad frame_D)
      = ({ Session.init 1920 1080 with mode := CALIBRATION_SEQUENCE, m_calib_point := 2 }, []) :=
  mode_gating _ _ (by
    refine ⟨by decide, ?_, ?_, ?_, ?_⟩
    · intro h; exact absurd h (by decide)
    · intro h; exact absurd h (by decide)
    · intro _; decide
    · intro h; exact absurd h (by decide))

theorem route_commands_append (s : Session) (a b : List (List Nat)) :
    route_commands s (a ++ b)
      = ((route_commands (route_commands s a).1 b).1,
         (route_commands s a).2 ++ (route_commands (route_commands s a).1 b).2) := by
  induction a generalizing s with
  | nil => simp [route_commands]
  | cons c cs ih =>
      have e : route_commands s (c :: (cs ++ b))
          = ((route_commands (route_command s c).1 (cs ++ b)).1,
             (route_command s c).2 ++ (route_commands (route_command s c).1 (cs ++ b)).2) := rfl
      have e2 : route_commands s (c :: cs)
          = ((route_commands (route_command s c).1 cs).1,
             (route_command s c).2 ++ (route_commands (route_command s c).1 cs).2) := rfl
      rw [List.cons_append, e, ih, e2, List.append_assoc]

theorem arr_set_natCast (a : List ℚ) (j : Nat) (v : ℚ) : arr_set a (j : Int) v = a.set j v := by
  simp [arr_set]

/-- One sample that is not the ninth: stored at the index, the index advances,
the next point is shown. -/
theorem calibration_step (s : Session) (cmd : List Nat) (j : Nat)
    (hmode : s.mode = CALIBRATION_SEQUENCE) (hidx : s.m_calib_point = (j : Int))
    (hj : j < 8) (hid : cmd.getD 0 0 = 67) :
    route_command s cmd
      = ({ s with
            m_yaw := s.m_yaw.set j (sample_of cmd).1
            m_pitch := s.m_pitch.set j (sample_of cmd).2.1
            m_roll := s.m_roll.set j (sample_of cmd).2.2
            m_calib_point := ((j + 1 : Nat) : Int) },
         [show_point (j + 1)]) := by
  have h9 : ((j : Int) < 9) := by omega
  have h8 : ¬ ((j : Int) = 8) := by omega
  simp only [route_command, hid, hmode, calibration_sequence, hidx, h9, h8, if_true, if_false,
    arr_set_natCast, sample_of, show_point, and_self]
  simp
  

/-- The ninth sample: stored at index 8, `X` is written, the model is computed,
the index is reset and the mode becomes `GAME_SEQUENCE`. -/
theorem calibration_last_step (s : Session) (cmd : List Nat)
    (hmode : s.mode = CALIBRATION_SEQUENCE) (hidx : s.m_calib_point = 8)
    (hid : cmd.getD 0 0 = 67) :
    route_command s cmd
      = ({ compute_model { s with
              m_yaw := s.m_yaw.set 8 (sample_of cmd).1
              m_pitch := s.m_pitch.set 8 (sample_of cmd).2.1
              m_roll := s.m_roll.set 8 (sample_of cmd).2.2 } with
            m_calib_point := 0, mode := GAME_SEQUENCE },
         [Effect.ble_write 88, Effect.ihm_quit, Effect.pthread_join]) := by
  have e8 : arr_set s.m_yaw 8 (sample_of cmd).1 = s.m_yaw.set 8 (sample_of cmd).1 :=
    arr_set_natCast _ 8 _
  have e8p : arr_set s.m_pitch 8 (sample_of cmd).2.1 = s.m_pitch.set 8 (sample_of cmd).2.1 :=
    arr_set_natCast _ 8 _
  have e8r : arr_set s.m_roll 8 (sample_of cmd).2.2 = s.m_roll.set 8 (sample_of cmd).2.2 :=
    arr_set_natCast _ 8 _
  have h9 : ((8 : Int) < 9) := by decide
  simp only [sample_of] at e8 e8p e8r
  simp only [route_command, hid, hmode, calibration_sequence, hidx, h9, if_true,
    sample_of, and_self, e8, e8p, e8r]
  simp

/-- A run of samples that does not reach the ninth one. -/
theorem calibration_steps (cmds : List (List Nat)) :
    ∀ (s : Session) (j : Nat), s.mode = CALIBRATION_SEQUENCE → s.m_calib_point = (j : Int) →
      j + cmds.length ≤ 8 → (∀ c ∈ cmds, c.getD 0 0 = 67) →
      route_commands s cmds
        = ({ s with
              m_yaw := store_samples s.m_yaw j (cmds.map (fun c => (sample_of c).1))
              m_pitch := store_samples s.m_pitch j (cmds.map (fun c => (sample_of c).2.1))
              m_roll := store_samples s.m_roll j (cmds.map (fun c => (sample_of c).2.2))
              m_calib_point := ((j + cmds.length : Nat) : Int) },
           (List.range cmds.length).map (fun i => show_point (j + i + 1))) := by
  induction cmds with
  | nil =>
      intro s j _ hidx _ _
      simp [route_commands, store_samples, ← hidx]
  | cons c cs ih =>
      intro s j hmode hidx hlen hid
      have hlen2 : j + 1 + cs.length ≤ 8 := by
        simp only [List.length_cons] at hlen; omega
      have hstep := calibration_step s c j hmode hidx (by omega) (hid c (List.mem_cons_self _ _))
      have e : route_commands s (c :: cs)
          = ((route_commands (route_command s c).1 cs).1,
             (route_command s c).2 ++ (route_commands (route_command s c).1 cs).2) := rfl
      have key := ih
        { s with
          m_yaw := s.m_yaw.set j (sample_of c).1
          m_pitch := s.m_pitch.set j (sample_of c).2.1
          m_roll := s.m_roll.set j (sample_of c).2.2
          m_calib_point := ((j + 1 : Nat) : Int) }
        (j + 1) hmode rfl hlen2 (fun x hx => hid x (List.mem_cons_of_mem _ hx))
      rw [e, hstep]
      dsimp only
      rw [key]
      simp only [List.map_cons, store_samples, List.length_cons, List.range_succ_eq_map,
        List.map_map, List.singleton_append]
      refine Prod.ext ?_ ?_
      · simp only [Session.mk.injEq, true_and, and_true]
        push_cast; ring
      · simp only [List.cons.injEq, Nat.add_zero, true_and]
        apply List.map_congr_left
        intro i _
        simp only [Function.comp, show_point]
        congr 2
        omega

theorem arr_store_samples_lt (vs : List ℚ) :
    ∀ (a : List ℚ) (j i : Nat), i < j → arr (store_samples a j vs) i = arr a i := by
  induction vs with
  | nil => intro a j i _; rfl
  | cons v vs ih =>
      intro a j i hij
      simp only [store_samples]
      rw [ih _ _ _ (by omega)]
      simp only [arr, List.getD_eq_getElem?_getD]
      rw [List.getElem?_set_ne (by omega)]

theorem arr_store_samples (vs : List ℚ) :
    ∀ (a : List ℚ) (j i : Nat), j ≤ i → i < j + vs.length → j + vs.length ≤ a.length →
      arr (store_samples a j vs) i = vs.getD (i - j) 0 := by
  induction vs with
  | nil => intro a j i h1 h2 _; simp at h2; omega
  | cons v vs ih =>
      intro a j i h1 h2 h3
      simp only [List.length_cons] at h2 h3
      simp only [store_samples]
      rcases Nat.eq_or_lt_of_le h1 with heq | hlt
      · subst heq
        rw [arr_store_samples_lt _ _ _ _ (by omega)]
        simp only [arr, List.getD_eq_getElem?_getD, Nat.sub_self, List.getElem?_cons_zero,
          Option.getD_some]
        rw [List.getElem?_set_self (by omega)]
        rfl
      · rw [ih _ _ _ (by omega) (by omega) (by simp only [List.length_set]; omega)]
        have e : i - j = (i - (j + 1)) + 1 := by omega
        rw [e]
        simp [List.getD_eq_getElem?_getD]


theorem list_length_nine {α : Type} (a : List α) (h : a.length = 9) :
    ∃ a0 a1 a2 a3 a4 a5 a6 a7 a8, a = [a0, a1, a2, a3, a4, a5, a6, a7, a8] := by
  obtain ⟨a0, t0, rfl⟩ := List.exists_cons_of_length_eq_add_one h
  obtain ⟨a1, t1, rfl⟩ := List.exists_cons_of_length_eq_add_one (Nat.succ.inj h)
  have h2 : t1.length = 7 := by simpa using h
  obtain ⟨a2, t2, rfl⟩ := List.exists_cons_of_length_eq_add_one h2
  have h3 : t2.length = 6 := by simpa using h2
  obtain ⟨a3, t3, rfl⟩ := List.exists_cons_of_length_eq_add_one h3
  have h4 : t3.length = 5 := by simpa using h3
  obtain ⟨a4, t4, rfl⟩ := List.exists_cons_of_length_eq_add_one h4
  have h5 : t4.length = 4 := by simpa using h4
  obtain ⟨a5, t5, rfl⟩ := List.exists_cons_of_length_eq_add_one h5
  have h6 : t5.length = 3 := by simpa using h5
  obtain ⟨a6, t6, rfl⟩ := List.exists_cons_of_length_eq_add_one h6
  have h7 : t6.length = 2 := by simpa using h6
  obtain ⟨a7, t7, rfl⟩ := List.exists_cons_of_length_eq_add_one h7
  have h8 : t7.length = 1 := by simpa using h7
  obtain ⟨a8, t8, rfl⟩ := List.exists_cons_of_length_eq_add_one h8
  have h9 : t8 = [] := by simpa using h8
  subst h9
  exact ⟨a0, a1, a2, a3, a4, a5, a6, a7, a8, rfl⟩

theorem store_eight_then_set (a vs : List ℚ) (v : ℚ) (ha : a.length = 9)
    (hv : vs.length = 8) : (store_samples a 0 vs).set 8 v = vs ++ [v] := by
  obtain ⟨a0, a1, a2, a3, a4, a5, a6, a7, a8, rfl⟩ := list_length_nine a ha
  obtain ⟨v0, v1, v2, v3, v4, v5, v6, v7, v8, hvv⟩ := list_length_nine (vs ++ [v]) (by simp [hv])
  have hvs : vs = [v0, v1, v2, v3, v4, v5, v6, v7] := by
    have h1 : vs ++ [v] = [v0, v1, v2, v3, v4, v5, v6, v7] ++ [v8] := by rw [hvv]; rfl
    exact (List.append_inj' h1 rfl).1
  have hv8 : v = v8 := by
    have h1 : vs ++ [v] = [v0, v1, v2, v3, v4, v5, v6, v7] ++ [v8] := by rw [hvv]; rfl
    have := (List.append_inj' h1 rfl).2
    simpa using this
  subst hvs
  subst hv8
  rfl

/-- Nine samples from index 0 in `CALIBRATION_SEQUENCE`: the final variables
and all the effects. -/
theorem route_nine_samples (s : Session) (cmds : List (List Nat))
    (hmode : s.mode = CALIBRATION_SEQUENCE) (hidx : s.m_calib_point = 0)
    (hy : s.m_yaw.length = 9) (hp : s.m_pitch.length = 9) (hr : s.m_roll.length = 9)
    (hlen : cmds.length = 9) (hid : ∀ c ∈ cmds, c.getD 0 0 = 67) :
    route_commands s cmds
      = ({ compute_model { s with
              m_yaw := cmds.map (fun c => (sample_of c).1)
              m_pitch := cmds.map (fun c => (sample_of c).2.1)
              m_roll := cmds.map (fun c => (sample_of c).2.2) } with
            m_calib_point := 0, mode := GAME_SEQUENCE },
         (List.range 8).map (fun i => show_point (i + 1))
           ++ [Effect.ble_write 88, Effect.ihm_quit, Effect.pthread_join]) := by
  obtain ⟨c0, c1, c2, c3, c4, c5, c6, c7, c8, rfl⟩ := list_length_nine cmds hlen
  have hsplit : [c0, c1, c2, c3, c4, c5, c6, c7, c8]
      = [c0, c1, c2, c3, c4, c5, c6, c7] ++ [c8] := rfl
  have hid8 : ∀ c ∈ [c0, c1, c2, c3, c4, c5, c6, c7], c.getD 0 0 = 67 := by
    intro c hc
    exact hid c (by rw [hsplit]; exact List.mem_append_left _ hc)
  have hidl : c8.getD 0 0 = 67 := hid c8 (by simp)
  have h8 := calibration_steps [c0, c1, c2, c3, c4, c5, c6, c7] s 0 hmode
    (by rw [hidx]; rfl) (by simp) hid8
  have hone : route_commands (route_commands s [c0, c1, c2, c3, c4, c5, c6, c7]).1 [c8]
      = ((route_command (route_commands s [c0, c1, c2, c3, c4, c5, c6, c7]).1 c8).1,
         (route_command (route_commands s [c0, c1, c2, c3, c4, c5, c6, c7]).1 c8).2 ++ []) :=
    rfl
  have hlast := calibration_last_step
    { s with
      m_yaw := store_samples s.m_yaw 0
        ([c0, c1, c2, c3, c4, c5, c6, c7].map (fun c => (sample_of c).1))
      m_pitch := store_samples s.m_pitch 0
        ([c0, c1, c2, c3, c4, c5, c6, c7].map (fun c => (sample_of c).2.1))
      m_roll := store_samples s.m_roll 0
        ([c0, c1, c2, c3, c4, c5, c6, c7].map (fun c => (sample_of c).2.2))
      m_calib_point := ((0 + [c0, c1, c2, c3, c4, c5, c6, c7].length : Nat) : Int) }
    c8 hmode rfl hidl
  rw [hsplit, route_commands_append, hone, h8]
  dsimp only
  rw [hlast]
  dsimp only
  rw [store_eight_then_set _ _ _ hy (by rfl), store_eight_then_set _ _ _ hp (by rfl),
    store_eight_then_set _ _ _ hr (by rfl)]
  simp [compute_model]


/-- C5. Nine-sample calibration cycle: from mode Calibrating with index 0, nine
commands with id `C` are processed as follows. After the first `k` of them
(`k` from 0 to 8) the mode is still Calibrating, the index is `k`, exactly `k`
signals to show the next point were sent (for the points 1 to `k`) and nothing
else, and the sample of the i-th command is stored at index `i` for each
`i < k`. After the ninth the nine samples are stored in order, the model is
the one computed from them, the index is 0 and the mode is Playing; the effects
of the whole cycle are the eight signals followed by one write of the byte `X`
and the stop and join of the UI, so `X` is written exactly once. -/
theorem nine_sample_cycle (s : Session) (cmds : List (List Nat))
    (hmode : s.mode = CALIBRATION_SEQUENCE) (hidx : s.m_calib_point = 0)
    (hy : s.m_yaw.length = 9) (hp : s.m_pitch.length = 9) (hr : s.m_roll.length = 9)
    (hlen : cmds.length = 9) (hid : ∀ c ∈ cmds, c.getD 0 0 = 67) :
    (∀ k, k < 9 →
        (route_commands s (cmds.take k)).1.mode = CALIBRATION_SEQUENCE
          ∧ (route_commands s (cmds.take k)).1.m_calib_point = (k : Int)
          ∧ (route_commands s (cmds.take k)).2 = (List.range k).map (fun i => show_point (i + 1))
          ∧ ∀ i c, i < k → cmds[i]? = some c →
              arr (route_commands s (cmds.take k)).1.m_yaw i = (sample_of c).1
                ∧ arr (route_commands s (cmds.take k)).1.m_pitch i = (sample_of c).2.1
                ∧ arr (route_commands s (cmds.take k)).1.m_roll i = (sample_of c).2.2)
      ∧ (route_commands s cmds).1
          = { compute_model { s with
                m_yaw := cmds.map (fun c => (sample_of c).1)
                m_pitch := cmds.map (fun c => (sample_of c).2.1)
                m_roll := cmds.map (fun c => (sample_of c).2.2) } with
              m_calib_point := 0, mode := GAME_SEQUENCE }
      ∧ (route_commands s cmds).1.mode = GAME_SEQUENCE
      ∧ (route_commands s cmds).2
          = (List.range 8).map (fun i => show_point (i + 1))
              ++ [Effect.ble_write 88, Effect.ihm_quit, Effect.pthread_join]
      ∧ (route_commands s cmds).2.count (Effect.ble_write 88) = 1 := by
  have hfin := route_nine_samples s cmds hmode hidx hy hp hr hlen hid
  refine ⟨?_, ?_, ?_, ?_, ?_⟩
  · intro k hk
    have hlk : (cmds.take k).length = k := by
      rw [List.length_take, hlen]; omega
    have hst := calibration_steps (cmds.take k) s 0 hmode (by rw [hidx]; rfl)
      (by rw [hlk]; omega) (fun c hc => hid c (List.mem_of_mem_take hc))
    rw [hst, hlk]
    refine ⟨hmode, by simp, by simp, ?_⟩
    intro i c hik hc
    have hget : ∀ f : List Nat → ℚ, ((cmds.take k).map f).getD (i - 0) 0 = f c := by
      intro f
      simp [List.getD_eq_getElem?_getD, List.getElem?_take, hik, hc]
    dsimp only
    refine ⟨?_, ?_, ?_⟩
    · rw [arr_store_samples _ _ 0 i (Nat.zero_le _) (by simp only [List.length_map, hlk]; omega)
        (by simp only [List.length_map, hlk, hy]; omega)]
      exact hget _
    · rw [arr_store_samples _ _ 0 i (Nat.zero_le _) (by simp only [List.length_map, hlk]; omega)
        (by simp only [List.length_map, hlk, hp]; omega)]
      exact hget _
    · rw [arr_store_samples _ _ 0 i (Nat.zero_le _) (by simp only [List.length_map, hlk]; omega)
        (by simp only [List.length_map, hlk, hr]; omega)]
      exact hget _
  · rw [hfin]
  · rw [hfin]
  · rw [hfin]
  · rw [hfin]
    dsimp only
    decide

/-- C5, an instance: nine times the command `C1 2 3;` on a 1920 by 1080
screen. -/
theorem nine_sample_cycle_witness :
    (route_commands { Session.init 1920 1080 with mode := CALIBRATION_SEQUENCE }
        (List.replicate 9 (pad frame_C))).2
      = (List.range 8).map (fun i => show_point (i + 1))
          ++ [Effect.ble_write 88, Effect.ihm_quit, Effect.pthread_join] :=
  (nine_sample_cycle { Session.init 1920 1080 with mode := CALIBRATION_SEQUENCE }
    (List.replicate 9 (pad frame_C)) rfl rfl rfl rfl rfl rfl (by decide)).2.2.2.1


/-! ## Properties of the calibration and of the pointer emission -/

theorem sample_of_grid_cmds : grid_cmds.map sample_of = grid_samples := by
  norm_num [grid_cmds, grid_samples, sample_of, pad, zeros, COMMAND_SIZE, sscanf_lf3, scan_double,
    scan_exponent, scan_digits, scan_sign, skip_spaces, isspace, isdigit]

/-- C6 as stated fails: nine samples `C1 2 3;` have all nine yaw values equal,
the mean of the samples 3, 4, 5 equals the mean of the samples 0, 1, 2, and yet
the ninth sample takes the session to Playing, not back to Calibrating. -/
theorem degenerate_calibration_enters_playing :
    (∀ c ∈ List.replicate 9 (pad frame_C), (sample_of c).1 = 1)
      ∧ (route_commands calib_start (List.replicate 9 (pad frame_C))).1.m_middle_x
          = (route_commands calib_start (List.replicate 9 (pad frame_C))).1.m_left
      ∧ (route_commands calib_start (List.replicate 9 (pad frame_C))).1.mode = GAME_SEQUENCE
      ∧ (route_commands calib_start (List.replicate 9 (pad frame_C))).1.mode
          ≠ CALIBRATION_SEQUENCE := by
  have hfin := route_nine_samples calib_start (List.replicate 9 (pad frame_C))
    rfl rfl rfl rfl rfl rfl (by decide)
  refine ⟨?_, ?_, ?_, ?_⟩
  · intro c hc
    rw [List.eq_of_mem_replicate hc, sample_of_frame_C]
  · rw [hfin]
    simp [compute_model, arr, average3, List.replicate, sample_of_frame_C]
  · rw [hfin]
  · rw [hfin]
    decide


/-- C6, amended. The ninth sample is never classified as a failure: for every
session in mode Calibrating with index 8 and every command with id `C`,
whatever the nine samples are (also when a group midpoint equals a group edge),
the byte `X` is written, the UI is stopped and joined, the index is reset to 0
and the mode becomes Playing. Each slope whose divisor is not zero is the
quotient of the half extent minus 30 by the difference of the two group means;
nothing is said of a slope whose divisor is zero. -/
theorem ninth_sample_always_enters_playing (s : Session) (cmd : List Nat)
    (hmode : s.mode = CALIBRATION_SEQUENCE) (hidx : s.m_calib_point = 8)
    (hid : cmd.getD 0 0 = 67) :
    (route_command s cmd).1.mode = GAME_SEQUENCE
      ∧ (route_command s cmd).1.m_calib_point = 0
      ∧ (route_command s cmd).2 = [Effect.ble_write 88, Effect.ihm_quit, Effect.pthread_join]
      ∧ ((route_command s cmd).1.m_middle_x ≠ (route_command s cmd).1.m_left →
          (route_command s cmd).1.m_deg_to_pixel_x1
            = ((Int.tdiv s.m_screen_width 2 - 30 : Int) : ℚ)
                / ((route_command s cmd).1.m_middle_x - (route_command s cmd).1.m_left))
      ∧ ((route_command s cmd).1.m_right ≠ (route_command s cmd).1.m_middle_x →
          (route_command s cmd).1.m_deg_to_pixel_x2
            = ((Int.tdiv s.m_screen_width 2 - 30 : Int) : ℚ)
                / ((route_command s cmd).1.m_right - (route_command s cmd).1.m_middle_x))
      ∧ ((route_command s cmd).1.m_middle_y ≠ (route_command s cmd).1.m_down →
          (route_command s cmd).1.m_deg_to_pixel_y1
            = ((Int.tdiv s.m_screen_height 2 - 30 : Int) : ℚ)
                / ((route_command s cmd).1.m_middle_y - (route_command s cmd).1.m_down))
      ∧ ((route_command s cmd).1.m_up ≠ (route_command s cmd).1.m_middle_y →
          (route_command s cmd).1.m_deg_to_pixel_y2
            = ((Int.tdiv s.m_screen_height 2 - 30 : Int) : ℚ)
                / ((route_command s cmd).1.m_up - (route_command s cmd).1.m_middle_y)) := by
  rw [calibration_last_step s cmd hmode hidx hid]
  refine ⟨rfl, rfl, rfl, ?_, ?_, ?_, ?_⟩ <;> intro _ <;> rfl

/-- C6, amended, an instance: the ninth sample `C1 2 3;` after eight samples. -/
theorem ninth_sample_always_enters_playing_witness :
    (route_command { calib_start with m_calib_point := 8 } (pad frame_C)).1.mode
      = GAME_SEQUENCE :=
  (ninth_sample_always_enters_playing { calib_start with m_calib_point := 8 } (pad frame_C)
    rfl rfl (by decide)).1

theorem clamp_u16_range (v : Int) : 0 ≤ clamp_u16 v ∧ clamp_u16 v ≤ 65535 := by
  unfold clamp_u16 UINT16_MAX
  dsimp only
  split_ifs <;> omega

/-- C7. Clamping: for every session (every calibration model, every screen
size) and every yaw, pitch and roll, both outputs of `angle_to_screen` lie in
the closed range from 0 to 65535. -/
theorem angle_to_screen_clamped (s : Session) (yaw pitch roll : ℚ) :
    0 ≤ (angle_to_screen s yaw pitch roll).1 ∧ (angle_to_screen s yaw pitch roll).1 ≤ 65535
      ∧ 0 ≤ (angle_to_screen s yaw pitch roll).2
      ∧ (angle_to_screen s yaw pitch roll).2 ≤ 65535 := by
  unfold angle_to_screen
  exact ⟨(clamp_u16_range _).1, (clamp_u16_range _).2, (clamp_u16_range _).1,
    (clamp_u16_range _).2⟩

/-- C10. Fire and aim emission: in mode Playing, a command with id `D` writes
to the uinput device exactly the eight events press, absolute X = x,
absolute Y = y, sync, release, absolute X = x, absolute Y = y, sync (with a
wait of 20 ms between the two halves), where (x, y) is `angle_to_screen` of the
sample of the command; a command with id `E` writes exactly absolute X = x,
absolute Y = y, sync. Both leave the mode and all the session unchanged. -/
theorem fire_emission (s : Session) (cmd : List Nat) (hmode : s.mode = GAME_SEQUENCE) :
    (cmd.getD 0 0 = 68 →
        (route_command s cmd).1 = s
          ∧ pointer_events (route_command s cmd).2
              = [(EV_KEY, BTN_LEFT, 1),
                 (EV_ABS, ABS_X, (angle_to_screen s (sample_of cmd).1 (sample_of cmd).2.1
                    (sample_of cmd).2.2).1),
                 (EV_ABS, ABS_Y, (angle_to_screen s (sample_of cmd).1 (sample_of cmd).2.1
                    (sample_of cmd).2.2).2),
                 (EV_SYN, SYN_REPORT, 0),
                 (EV_KEY, BTN_LEFT, 0),
                 (EV_ABS, ABS_X, (angle_to_screen s (sample_of cmd).1 (sample_of cmd).2.1
                    (sample_of cmd).2.2).1),
                 (EV_ABS, ABS_Y, (angle_to_screen s (sample_of cmd).1 (sample_of cmd).2.1
                    (sample_of cmd).2.2).2),
                 (EV_SYN, SYN_REPORT, 0)]
          ∧ (route_command s cmd).2
              = [Effect.emit EV_KEY BTN_LEFT 1,
                 Effect.emit EV_ABS ABS_X (angle_to_screen s (sample_of cmd).1
                    (sample_of cmd).2.1 (sample_of cmd).2.2).1,
                 Effect.emit EV_ABS ABS_Y (angle_to_screen s (sample_of cmd).1
                    (sample_of cmd).2.1 (sample_of cmd).2.2).2,
                 Effect.emit EV_SYN SYN_REPORT 0,
                 Effect.usleep 20000,
                 Effect.emit EV_KEY BTN_LEFT 0,
                 Effect.emit EV_ABS ABS_X (angle_to_screen s (sample_of cmd).1
                    (sample_of cmd).2.1 (sample_of cmd).2.2).1,
                 Effect.emit EV_ABS ABS_Y (angle_to_screen s (sample_of cmd).1
                    (sample_of cmd).2.1 (sample_of cmd).2.2).2,
                 Effect.emit EV_SYN SYN_REPORT 0])
      ∧ (cmd.getD 0 0 = 69 →
          (route_command s cmd).1 = s
            ∧ (route_command s cmd).2
                = [Effect.emit EV_ABS ABS_X (angle_to_screen s (sample_of cmd).1
                      (sample_of cmd).2.1 (sample_of cmd).2.2).1,
                   Effect.emit EV_ABS ABS_Y (angle_to_screen s (sample_of cmd).1
                      (sample_of cmd).2.1 (sample_of cmd).2.2).2,
                   Effect.emit EV_SYN SYN_REPORT 0]) := by
  constructor
  · intro hid
    have h4 : GAME_SEQUENCE ≠ STAB_SEQUENCE := by decide
    have h5 : GAME_SEQUENCE ≠ CALIBRATION_SEQUENCE := by decide
    have e : route_command s cmd = (s, game_sequence s cmd) := by
      simp only [route_command, hid, hmode]
      simp [h4, h5]
    rw [e]
    exact ⟨rfl, rfl, rfl⟩
  · intro hid
    have h4 : GAME_SEQUENCE ≠ STAB_SEQUENCE := by decide
    have h5 : GAME_SEQUENCE ≠ CALIBRATION_SEQUENCE := by decide
    have e : route_command s cmd = (s, aim_sequence s cmd) := by
      simp only [route_command, hid, hmode]
      simp [h4, h5]
    rw [e]
    exact ⟨rfl, rfl⟩

/-- C10, an instance: the command `D4 5 6;` in mode Playing. -/
theorem fire_emission_witness :
    (route_command { Session.init 1920 1080 with mode := GAME_SEQUENCE } (pad frame_D)).1
      = { Session.init 1920 1080 with mode := GAME_SEQUENCE } :=
  ((fire_emission { Session.init 1920 1080 with mode := GAME_SEQUENCE } (pad frame_D) rfl).1
    (by decide)).1


/-- The six group means after nine samples, as stored by `compute_model`. -/
theorem nine_samples_means (s : Session) (cmds : List (List Nat))
    (hmode : s.mode = CALIBRATION_SEQUENCE) (hidx : s.m_calib_point = 0)
    (hy : s.m_yaw.length = 9) (hp : s.m_pitch.length = 9) (hr : s.m_roll.length = 9)
    (hlen : cmds.length = 9) (hid : ∀ c ∈ cmds, c.getD 0 0 = 67) :
    (route_commands s cmds).1.m_left = (yaw_of cmds 0 + yaw_of cmds 1 + yaw_of cmds 2) / 3
      ∧ (route_commands s cmds).1.m_middle_x
          = (yaw_of cmds 3 + yaw_of cmds 4 + yaw_of cmds 5) / 3
      ∧ (route_commands s cmds).1.m_right
          = (yaw_of cmds 6 + yaw_of cmds 7 + yaw_of cmds 8) / 3
      ∧ (route_commands s cmds).1.m_up
          = (pitch_of cmds 0 + pitch_of cmds 5 + pitch_of cmds 6) / 3
      ∧ (route_commands s cmds).1.m_middle_y
          = (pitch_of cmds 1 + pitch_of cmds 4 + pitch_of cmds 7) / 3
      ∧ (route_commands s cmds).1.m_down
          = (pitch_of cmds 2 + pitch_of cmds 3 + pitch_of cmds 8) / 3 := by
  rw [route_nine_samples s cmds hmode hidx hy hp hr hlen hid]
  obtain ⟨c0, c1, c2, c3, c4, c5, c6, c7, c8, rfl⟩ := list_length_nine cmds hlen
  simp [compute_model, arr, average3, yaw_of, pitch_of]

/-- C8. Calibration group means: after the ninth sample of a cycle, with
`yaw i` and `pitch i` the yaw and pitch of the i-th sample, `m_left` is
(yaw 0 + yaw 1 + yaw 2) / 3, `m_middle_x` is (yaw 3 + yaw 4 + yaw 5) / 3,
`m_right` is (yaw 6 + yaw 7 + yaw 8) / 3, `m_up` is
(pitch 0 + pitch 5 + pitch 6) / 3, `m_middle_y` is
(pitch 1 + pitch 4 + pitch 7) / 3 and `m_down` is
(pitch 2 + pitch 3 + pitch 8) / 3. These six values depend on the nine samples
only: another cycle, from other variables and other commands with the same
samples, gives the same six values. For the samples of the grid with yaw
-10, 0, 10 and pitch 10, 0, -10, `m_middle_x` and `m_middle_y` are 0. -/
theorem calibration_group_means (s : Session) (cmds : List (List Nat))
    (hmode : s.mode = CALIBRATION_SEQUENCE) (hidx : s.m_calib_point = 0)
    (hy : s.m_yaw.length = 9) (hp : s.m_pitch.length = 9) (hr : s.m_roll.length = 9)
    (hlen : cmds.length = 9) (hid : ∀ c ∈ cmds, c.getD 0 0 = 67) :
    ((route_commands s cmds).1.m_left = (yaw_of cmds 0 + yaw_of cmds 1 + yaw_of cmds 2) / 3
      ∧ (route_commands s cmds).1.m_middle_x
          = (yaw_of cmds 3 + yaw_of cmds 4 + yaw_of cmds 5) / 3
      ∧ (route_commands s cmds).1.m_right
          = (yaw_of cmds 6 + yaw_of cmds 7 + yaw_of cmds 8) / 3
      ∧ (route_commands s cmds).1.m_up
          = (pitch_of cmds 0 + pitch_of cmds 5 + pitch_of cmds 6) / 3
      ∧ (route_commands s cmds).1.m_middle_y
          = (pitch_of cmds 1 + pitch_of cmds 4 + pitch_of cmds 7) / 3
      ∧ (route_commands s cmds).1.m_down
          = (pitch_of cmds 2 + pitch_of cmds 3 + pitch_of cmds 8) / 3)
    ∧ (∀ (s2 : Session) (cmds2 : List (List Nat)),
        s2.mode = CALIBRATION_SEQUENCE → s2.m_calib_point = 0 →
        s2.m_yaw.length = 9 → s2.m_pitch.length = 9 → s2.m_roll.length = 9 →
        cmds2.length = 9 → (∀ c ∈ cmds2, c.getD 0 0 = 67) →
        cmds2.map sample_of = cmds.map sample_of →
          (route_commands s2 cmds2).1.m_left = (route_commands s cmds).1.m_left
            ∧ (route_commands s2 cmds2).1.m_middle_x = (route_commands s cmds).1.m_middle_x
            ∧ (route_commands s2 cmds2).1.m_right = (route_commands s cmds).1.m_right
            ∧ (route_commands s2 cmds2).1.m_up = (route_commands s cmds).1.m_up
            ∧ (route_commands s2 cmds2).1.m_middle_y = (route_commands s cmds).1.m_middle_y
            ∧ (route_commands s2 cmds2).1.m_down = (route_commands s cmds).1.m_down)
    ∧ (cmds.map sample_of = grid_samples →
        (route_commands s cmds).1.m_middle_x = 0 ∧ (route_commands s cmds).1.m_middle_y = 0) := by
  have h1 := nine_samples_means s cmds hmode hidx hy hp hr hlen hid
  refine ⟨h1, ?_, ?_⟩
  · intro s2 cmds2 g1 g2 g3 g4 g5 g6 g7 hsame
    have h2 := nine_samples_means s2 cmds2 g1 g2 g3 g4 g5 g6 g7
    obtain ⟨a1, a2, a3, a4, a5, a6⟩ := h1
    obtain ⟨b1, b2, b3, b4, b5, b6⟩ := h2
    rw [a1, a2, a3, a4, a5, a6, b1, b2, b3, b4, b5, b6]
    simp only [yaw_of, pitch_of, hsame, and_self]
  · intro hg
    obtain ⟨_, a2, _, _, a5, _⟩ := h1
    rw [a2, a5]
    simp only [yaw_of, pitch_of, hg, grid_samples]
    norm_num

/-- C8, an instance: the nine commands of the grid on a 1920 by 1080 screen
give `m_middle_x = 0` and `m_middle_y = 0`. -/
theorem calibration_group_means_witness :
    (route_commands calib_start grid_cmds).1.m_middle_x = 0
      ∧ (route_commands calib_start grid_cmds).1.m_middle_y = 0 :=
  (calibration_group_means calib_start grid_cmds rfl rfl rfl rfl rfl rfl (by decide)).2.2
    sample_of_grid_cmds


theorem clamp_double_to_int (q : ℚ) (h0 : 0 ≤ q) (h1 : q ≤ 65535) :
    clamp_u16 (double_to_int q) = ⌊q⌋ := by
  have f0 : 0 ≤ ⌊q⌋ := Int.floor_nonneg.mpr h0
  have f1 : ⌊q⌋ ≤ 65535 := by
    have : ((⌊q⌋ : Int) : ℚ) ≤ 65535 := le_trans (Int.floor_le q) h1
    exact_mod_cast this
  unfold clamp_u16 double_to_int UINT16_MAX INT_MAX INT_MIN
  simp only [h0, if_true]
  have e1 : min (2147483647 : Int) ⌊q⌋ = ⌊q⌋ := min_eq_right (by omega)
  have e2 : max (-2147483648 : Int) ⌊q⌋ = ⌊q⌋ := max_eq_right (by omega)
  rw [e1, e2]
  split_ifs <;> omega

theorem normalise_range (p : ℚ) (w : Int) (hw : 0 < w) (h0 : 0 ≤ p) (h1 : p ≤ (w : ℚ)) :
    0 ≤ p / (w : ℚ) * 65535 ∧ p / (w : ℚ) * 65535 ≤ 65535 := by
  have hwq : (0 : ℚ) < (w : ℚ) := by exact_mod_cast hw
  constructor
  · positivity
  · have : p / (w : ℚ) ≤ 1 := (div_le_one hwq).mpr h1
    nlinarith

theorem half_extent_bounds (w : Int) (hw : 60 ≤ w) :
    30 ≤ Int.tdiv w 2 ∧ 2 * Int.tdiv w 2 ≤ w := by
  rw [Int.tdiv_eq_ediv (by omega) (by decide)]
  omega

theorem pixel_x_targets (t : Session)
    (hs1 : t.m_deg_to_pixel_x1
      = ((Int.tdiv t.m_screen_width 2 - 30 : Int) : ℚ) / (t.m_middle_x - t.m_left))
    (hs2 : t.m_deg_to_pixel_x2
      = ((Int.tdiv t.m_screen_width 2 - 30 : Int) : ℚ) / (t.m_right - t.m_middle_x))
    (hl : t.m_left < t.m_middle_x) (hr : t.m_middle_x < t.m_right) :
    pixel_x t t.m_left = 30
      ∧ pixel_x t t.m_middle_x = ((Int.tdiv t.m_screen_width 2 : Int) : ℚ)
      ∧ pixel_x t t.m_right = 2 * ((Int.tdiv t.m_screen_width 2 : Int) : ℚ) - 30 := by
  have d1 : t.m_middle_x - t.m_left ≠ 0 := sub_ne_zero.mpr (ne_of_gt hl)
  have d2 : t.m_right - t.m_middle_x ≠ 0 := sub_ne_zero.mpr (ne_of_gt hr)
  have n1 : ¬ t.m_middle_x < t.m_middle_x := lt_irrefl _
  have n2 : ¬ t.m_right < t.m_middle_x := not_lt.mpr (le_of_lt hr)
  refine ⟨?_, ?_, ?_⟩
  · simp only [pixel_x, hl, if_true, hs1]
    push_cast
    field_simp
  · simp only [pixel_x, n1, if_false, sub_self, zero_mul, add_zero]
  · simp only [pixel_x, n2, if_false, hs2]
    push_cast
    field_simp
    ring

theorem pixel_y_targets (t : Session)
    (hs1 : t.m_deg_to_pixel_y1
      = ((Int.tdiv t.m_screen_height 2 - 30 : Int) : ℚ) / (t.m_middle_y - t.m_down))
    (hs2 : t.m_deg_to_pixel_y2
      = ((Int.tdiv t.m_screen_height 2 - 30 : Int) : ℚ) / (t.m_up - t.m_middle_y))
    (hd : t.m_down < t.m_middle_y) (hu : t.m_middle_y < t.m_up) :
    pixel_y t t.m_up = 30
      ∧ pixel_y t t.m_middle_y = ((Int.tdiv t.m_screen_height 2 : Int) : ℚ)
      ∧ pixel_y t t.m_down = 2 * ((Int.tdiv t.m_screen_height 2 : Int) : ℚ) - 30 := by
  have d1 : t.m_middle_y - t.m_down ≠ 0 := sub_ne_zero.mpr (ne_of_gt hd)
  have d2 : t.m_up - t.m_middle_y ≠ 0 := sub_ne_zero.mpr (ne_of_gt hu)
  have n1 : ¬ t.m_middle_y < t.m_middle_y := lt_irrefl _
  have n2 : ¬ t.m_up < t.m_middle_y := not_lt.mpr (le_of_lt hu)
  refine ⟨?_, ?_, ?_⟩
  · simp only [pixel_y, n2, if_false, hs2]
    push_cast
    field_simp
  · simp only [pixel_y, n1, if_false, sub_self, zero_mul, sub_zero]
  · simp only [pixel_y, hd, if_true, hs1]
    push_cast
    field_simp
    ring

theorem angle_to_screen_of_range (t : Session) (yaw pitch roll : ℚ)
    (hw : 0 < t.m_screen_width) (hh : 0 < t.m_screen_height)
    (hx0 : 0 ≤ pixel_x t yaw) (hx1 : pixel_x t yaw ≤ (t.m_screen_width : ℚ))
    (hy0 : 0 ≤ pixel_y t pitch) (hy1 : pixel_y t pitch ≤ (t.m_screen_height : ℚ)) :
    angle_to_screen t yaw pitch roll
      = (⌊pixel_x t yaw / (t.m_screen_width : ℚ) * 65535⌋,
         ⌊pixel_y t pitch / (t.m_screen_height : ℚ) * 65535⌋) := by
  have rx := normalise_range _ _ hw hx0 hx1
  have ry := normalise_range _ _ hh hy0 hy1
  simp only [angle_to_screen, UINT16_MAX]
  push_cast
  rw [clamp_double_to_int _ rx.1 rx.2, clamp_double_to_int _ ry.1 ry.2]


theorem grid_model_means :
    (route_commands calib_start grid_cmds).1.m_left = -10
      ∧ (route_commands calib_start grid_cmds).1.m_middle_x = 0
      ∧ (route_commands calib_start grid_cmds).1.m_right = 10
      ∧ (route_commands calib_start grid_cmds).1.m_up = 10
      ∧ (route_commands calib_start grid_cmds).1.m_middle_y = 0
      ∧ (route_commands calib_start grid_cmds).1.m_down = -10 := by
  obtain ⟨a1, a2, a3, a4, a5, a6⟩ :=
    nine_samples_means calib_start grid_cmds rfl rfl rfl rfl rfl rfl (by decide)
  rw [a1, a2, a3, a4, a5, a6]
  simp only [yaw_of, pitch_of, sample_of_grid_cmds, grid_samples]
  norm_num

/-- C9. Calibration targets map back to their on-screen markers: for a screen
at least 60 wide and 60 high and nine samples whose group means satisfy
left < middleX < right and down < middleY < up, the model computed on the ninth
sample gives, in exact arithmetic, the pixel position 30 for yaw = left, the
integer half width for yaw = middleX and twice the integer half width minus 30
for yaw = right, and the pixel position 30 for pitch = up, the integer half
height for pitch = middleY and twice the integer half height minus 30 for
pitch = down. The outputs of `angle_to_screen` at (left, up), (middleX,
middleY) and (right, down) are these pixel positions divided by the extent,
times 65535, with the fraction dropped. The positions for left and right are
symmetric about the one for middleX, and those for up and down about the one
for middleY. -/
theorem calibration_targets (s : Session) (cmds : List (List Nat))
    (hmode : s.mode = CALIBRATION_SEQUENCE) (hidx : s.m_calib_point = 0)
    (hy : s.m_yaw.length = 9) (hp : s.m_pitch.length = 9) (hr : s.m_roll.length = 9)
    (hlen : cmds.length = 9) (hid : ∀ c ∈ cmds, c.getD 0 0 = 67)
    (hW : 60 ≤ s.m_screen_width) (hH : 60 ≤ s.m_screen_height)
    (hleft : (route_commands s cmds).1.m_left < (route_commands s cmds).1.m_middle_x)
    (hright : (route_commands s cmds).1.m_middle_x < (route_commands s cmds).1.m_right)
    (hdown : (route_commands s cmds).1.m_down < (route_commands s cmds).1.m_middle_y)
    (hup : (route_commands s cmds).1.m_middle_y < (route_commands s cmds).1.m_up) :
    (pixel_x (route_commands s cmds).1 (route_commands s cmds).1.m_left = 30
      ∧ pixel_x (route_commands s cmds).1 (route_commands s cmds).1.m_middle_x
          = ((Int.tdiv s.m_screen_width 2 : Int) : ℚ)
      ∧ pixel_x (route_commands s cmds).1 (route_commands s cmds).1.m_right
          = 2 * ((Int.tdiv s.m_screen_width 2 : Int) : ℚ) - 30)
    ∧ (pixel_y (route_commands s cmds).1 (route_commands s cmds).1.m_up = 30
      ∧ pixel_y (route_commands s cmds).1 (route_commands s cmds).1.m_middle_y
          = ((Int.tdiv s.m_screen_height 2 : Int) : ℚ)
      ∧ pixel_y (route_commands s cmds).1 (route_commands s cmds).1.m_down
          = 2 * ((Int.tdiv s.m_screen_height 2 : Int) : ℚ) - 30)
    ∧ (∀ roll, angle_to_screen (route_commands s cmds).1 (route_commands s cmds).1.m_left
          (route_commands s cmds).1.m_up roll
        = (⌊(30 : ℚ) / (s.m_screen_width : ℚ) * 65535⌋,
           ⌊(30 : ℚ) / (s.m_screen_height : ℚ) * 65535⌋))
    ∧ (∀ roll, angle_to_screen (route_commands s cmds).1 (route_commands s cmds).1.m_middle_x
          (route_commands s cmds).1.m_middle_y roll
        = (⌊((Int.tdiv s.m_screen_width 2 : Int) : ℚ) / (s.m_screen_width : ℚ) * 65535⌋,
           ⌊((Int.tdiv s.m_screen_height 2 : Int) : ℚ) / (s.m_screen_height : ℚ) * 65535⌋))
    ∧ (∀ roll, angle_to_screen (route_commands s cmds).1 (route_commands s cmds).1.m_right
          (route_commands s cmds).1.m_down roll
        = (⌊(2 * ((Int.tdiv s.m_screen_width 2 : Int) : ℚ) - 30)
              / (s.m_screen_width : ℚ) * 65535⌋,
           ⌊(2 * ((Int.tdiv s.m_screen_height 2 : Int) : ℚ) - 30)
              / (s.m_screen_height : ℚ) * 65535⌋))
    ∧ (pixel_x (route_commands s cmds).1 (route_commands s cmds).1.m_left
          + pixel_x (route_commands s cmds).1 (route_commands s cmds).1.m_right
        = 2 * pixel_x (route_commands s cmds).1 (route_commands s cmds).1.m_middle_x)
    ∧ (pixel_y (route_commands s cmds).1 (route_commands s cmds).1.m_up
          + pixel_y (route_commands s cmds).1 (route_commands s cmds).1.m_down
        = 2 * pixel_y (route_commands s cmds).1 (route_commands s cmds).1.m_middle_y) := by
  have hfin := route_nine_samples s cmds hmode hidx hy hp hr hlen hid
  have hw : (route_commands s cmds).1.m_screen_width = s.m_screen_width := by rw [hfin]; rfl
  have hh : (route_commands s cmds).1.m_screen_height = s.m_screen_height := by rw [hfin]; rfl
  have sx1 : (route_commands s cmds).1.m_deg_to_pixel_x1
      = ((Int.tdiv (route_commands s cmds).1.m_screen_width 2 - 30 : Int) : ℚ)
          / ((route_commands s cmds).1.m_middle_x - (route_commands s cmds).1.m_left) := by
    rw [hfin]; rfl
  have sx2 : (route_commands s cmds).1.m_deg_to_pixel_x2
      = ((Int.tdiv (route_commands s cmds).1.m_screen_width 2 - 30 : Int) : ℚ)
          / ((route_commands s cmds).1.m_right - (route_commands s cmds).1.m_middle_x) := by
    rw [hfin]; rfl
  have sy1 : (route_commands s cmds).1.m_deg_to_pixel_y1
      = ((Int.tdiv (route_commands s cmds).1.m_screen_height 2 - 30 : Int) : ℚ)
          / ((route_commands s cmds).1.m_middle_y - (route_commands s cmds).1.m_down) := by
    rw [hfin]; rfl
  have sy2 : (route_commands s cmds).1.m_deg_to_pixel_y2
      = ((Int.tdiv (route_commands s cmds).1.m_screen_height 2 - 30 : Int) : ℚ)
          / ((route_commands s cmds).1.m_up - (route_commands s cmds).1.m_middle_y) := by
    rw [hfin]; rfl
  obtain ⟨px1, px2, px3⟩ := pixel_x_targets _ sx1 sx2 hleft hright
  obtain ⟨py1, py2, py3⟩ := pixel_y_targets _ sy1 sy2 hdown hup
  rw [hw] at px2 px3
  rw [hh] at py2 py3
  obtain ⟨bw1, bw2⟩ := half_extent_bounds s.m_screen_width hW
  obtain ⟨bh1, bh2⟩ := half_extent_bounds s.m_screen_height hH
  have qw1 : (30 : ℚ) ≤ ((Int.tdiv s.m_screen_width 2 : Int) : ℚ) := by exact_mod_cast bw1
  have qw2 : 2 * ((Int.tdiv s.m_screen_width 2 : Int) : ℚ) ≤ (s.m_screen_width : ℚ) := by
    exact_mod_cast bw2
  have qh1 : (30 : ℚ) ≤ ((Int.tdiv s.m_screen_height 2 : Int) : ℚ) := by exact_mod_cast bh1
  have qh2 : 2 * ((Int.tdiv s.m_screen_height 2 : Int) : ℚ) ≤ (s.m_screen_height : ℚ) := by
    exact_mod_cast bh2
  have posw : 0 < (route_commands s cmds).1.m_screen_width := by rw [hw]; omega
  have posh : 0 < (route_commands s cmds).1.m_screen_height := by rw [hh]; omega
  refine ⟨⟨px1, px2, px3⟩, ⟨py1, py2, py3⟩, ?_, ?_, ?_, ?_, ?_⟩
  · intro roll
    rw [angle_to_screen_of_range _ _ _ roll posw posh (by rw [px1]; norm_num)
      (by rw [px1, hw]; linarith) (by rw [py1]; norm_num) (by rw [py1, hh]; linarith),
      px1, py1, hw, hh]
  · intro roll
    rw [angle_to_screen_of_range _ _ _ roll posw posh (by rw [px2]; linarith)
      (by rw [px2, hw]; linarith) (by rw [py2]; linarith) (by rw [py2, hh]; linarith),
      px2, py2, hw, hh]
  · intro roll
    rw [angle_to_screen_of_range _ _ _ roll posw posh (by rw [px3]; linarith)
      (by rw [px3, hw]; linarith) (by rw [py3]; linarith) (by rw [py3, hh]; linarith),
      px3, py3, hw, hh]
  · rw [px1, px2, px3]; ring
  · rw [py1, py2, py3]; ring

/-- C9, an instance: the grid calibration on a 1920 by 1080 screen; the yaw
`m_left` maps to the pixel column 30. -/
theorem calibration_targets_witness :
    pixel_x (route_commands calib_start grid_cmds).1
        (route_commands calib_start grid_cmds).1.m_left = 30 :=
  (calibration_targets calib_start grid_cmds rfl rfl rfl rfl rfl rfl (by decide)
    (by decide) (by decide)
    (by rw [grid_model_means.1, grid_model_means.2.1]; norm_num)
    (by rw [grid_model_means.2.1, grid_model_means.2.2.1]; norm_num)
    (by rw [grid_model_means.2.2.2.2.2, grid_model_means.2.2.2.2.1]; norm_num)
    (by rw [grid_model_means.2.2.2.2.1, grid_model_means.2.2.2.1]; norm_num)).1.1


theorem clamp_double_to_int_low (q : ℚ) (h : q ≤ 0) : clamp_u16 (double_to_int q) = 0 := by
  have hc : ⌈q⌉ ≤ 0 := Int.ceil_le.mpr (by exact_mod_cast h)
  have hf : ⌊q⌋ ≤ 0 := by
    have : ((⌊q⌋ : Int) : ℚ) ≤ ((0 : Int) : ℚ) := le_trans (Int.floor_le q) (by exact_mod_cast h)
    exact_mod_cast this
  unfold clamp_u16 double_to_int UINT16_MAX INT_MAX INT_MIN
  dsimp only
  split_ifs <;> omega

theorem clamp_double_to_int_high (q : ℚ) (h : 65535 ≤ q) :
    clamp_u16 (double_to_int q) = 65535 := by
  have h0 : 0 ≤ q := le_trans (by norm_num) h
  have hf : 65535 ≤ ⌊q⌋ := Int.le_floor.mpr (by exact_mod_cast h)
  unfold clamp_u16 double_to_int UINT16_MAX INT_MAX INT_MIN
  simp only [h0, if_true]
  split_ifs <;> omega

/-- The grid model far outside the calibrated range: yaw 10000 and pitch -10000
are clamped to (65535, 65535), yaw -10000 and pitch 10000 to (0, 0). -/
theorem grid_model_far_outside :
    angle_to_screen (route_commands calib_start grid_cmds).1 10000 (-10000) 0 = (65535, 65535)
      ∧ angle_to_screen (route_commands calib_start grid_cmds).1 (-10000) 10000 0 = (0, 0) := by
  have hfin := route_nine_samples calib_start grid_cmds rfl rfl rfl rfl rfl rfl (by decide)
  have hyaw : grid_cmds.map (fun c => (sample_of c).1) = grid_samples.map (fun v => v.1) := by
    rw [← sample_of_grid_cmds, List.map_map]; rfl
  have hpitch : grid_cmds.map (fun c => (sample_of c).2.1)
      = grid_samples.map (fun v => v.2.1) := by
    rw [← sample_of_grid_cmds, List.map_map]; rfl
  rw [hfin, hyaw, hpitch]
  have t1 : Int.tdiv 1920 2 = 960 := by decide
  have t2 : Int.tdiv 1080 2 = 540 := by decide
  simp only [angle_to_screen]
  refine ⟨Prod.ext (clamp_double_to_int_high _ ?_) (clamp_double_to_int_high _ ?_),
    Prod.ext (clamp_double_to_int_low _ ?_) (clamp_double_to_int_low _ ?_)⟩ <;>
  · simp only [pixel_x, pixel_y, compute_model, arr, average3, grid_samples,
      calib_start, Session.init, UINT16_MAX, t1, t2,
      List.map, List.getD_cons_zero, List.getD_cons_succ]
    norm_num


/-! ## The Init transition -/

/-- C11 as stated fails: on an Init command from the initial mode the byte `Z`
is written after the 5 second wait and after the Init UI was stopped and
joined, not before them. -/
theorem init_writes_Z_after_settle_wait :
    (route_command (Session.init 1920 1080) (pad frame_A)).2
        = [Effect.pthread_create INIT_SEQUENCE, Effect.sleep 5, Effect.ihm_quit,
           Effect.pthread_join, Effect.ble_write 90, Effect.pthread_create STAB_SEQUENCE]
      ∧ (route_command (Session.init 1920 1080) (pad frame_A)).2
        ≠ [Effect.pthread_create INIT_SEQUENCE, Effect.ble_write 90, Effect.sleep 5,
           Effect.ihm_quit, Effect.pthread_join, Effect.pthread_create STAB_SEQUENCE] := by
  have e : (route_command (Session.init 1920 1080) (pad frame_A)).2
      = [Effect.pthread_create INIT_SEQUENCE, Effect.sleep 5, Effect.ihm_quit,
         Effect.pthread_join, Effect.ble_write 90, Effect.pthread_create STAB_SEQUENCE] := rfl
  refine ⟨e, ?_⟩
  rw [e]
  decide

/-- C11, amended. Init transition order: from every mode, a command with id `A`
has these effects, in this order: if the mode is neither 0 nor Playing (so for
Init, Stabilizing and Calibrating) the active UI is stopped and joined; the
Init UI is started; the thread waits 5 seconds; the Init UI is stopped and
joined; the byte `Z` is written to the peripheral; the Stabilizing UI is
started. The mode ends as Stabilizing and no other variable changes. So `Z` is
written after the settle wait and after the Init UI was stopped. -/
theorem init_transition_order (s : Session) (cmd : List Nat) (hid : cmd.getD 0 0 = 65) :
    route_command s cmd
        = ({ s with mode := STAB_SEQUENCE },
           (if s.mode ≠ 0 ∧ s.mode ≠ GAME_SEQUENCE
              then [Effect.ihm_quit, Effect.pthread_join] else []) ++ init_effects)
      ∧ (s.mode = INIT_SEQUENCE ∨ s.mode = STAB_SEQUENCE ∨ s.mode = CALIBRATION_SEQUENCE →
          (route_command s cmd).2 = [Effect.ihm_quit, Effect.pthread_join] ++ init_effects)
      ∧ (s.mode = 0 ∨ s.mode = GAME_SEQUENCE → (route_command s cmd).2 = init_effects)
      ∧ (route_command s cmd).1.mode = STAB_SEQUENCE := by
  have e : route_command s cmd
      = ({ s with mode := STAB_SEQUENCE },
         (if s.mode ≠ 0 ∧ s.mode ≠ GAME_SEQUENCE
            then [Effect.ihm_quit, Effect.pthread_join] else []) ++ init_effects) := by
    simp only [route_command, hid, if_true, init_sequence, init_effects]
  refine ⟨e, ?_, ?_, ?_⟩
  · intro hm
    have hc : s.mode ≠ 0 ∧ s.mode ≠ GAME_SEQUENCE := by
      rcases hm with h | h | h <;> rw [h] <;> decide
    rw [e]
    exact congrArg (fun l => l ++ init_effects) (if_pos hc)
  · intro hm
    have hc : ¬ (s.mode ≠ 0 ∧ s.mode ≠ GAME_SEQUENCE) := by
      rcases hm with h | h <;> rw [h] <;> decide
    rw [e]
    exact congrArg (fun l => l ++ init_effects) (if_neg hc)
  · rw [e]

/-- C11, amended, an instance: the command `A;` while the mode is Calibrating. -/
theorem init_transition_order_witness :
    (route_command calib_start (pad frame_A)).2
      = [Effect.ihm_quit, Effect.pthread_join] ++ init_effects :=
  (init_transition_order calib_start (pad frame_A) (by decide)).2.1 (Or.inr (Or.inr rfl))


/-! ## The maximum frame length -/

theorem memcpy_length (buffer d : List Nat) (n : Nat) (hbuf : buffer.length = COMMAND_SIZE)
    (hfit : n + d.length < COMMAND_SIZE) :
    (memcpy buffer n d d.length).length = COMMAND_SIZE := by
  simp only [memcpy, List.length_append, List.length_take, List.length_drop, hbuf]
  simp only [COMMAND_SIZE] at hfit ⊢
  omega

theorem memcpy_take (buffer d : List Nat) (n : Nat) (hn : n ≤ buffer.length) :
    (memcpy buffer n d d.length).take (n + d.length) = buffer.take n ++ d := by
  have hl : (buffer.take n ++ d).length = n + d.length := by
    simp [List.length_take, Nat.min_eq_left hn]
  simp only [memcpy, List.take_length]
  exact List.take_left' hl

/-- A frame of exactly 30 bytes, in any non-empty chunks, is dropped: when its
last chunk arrives the accumulated length would be 30, and `buf_length` is set
to 0 without anything being queued. -/
theorem feed_frame_of_30 (chunks : List (List Nat)) :
    ∀ (st : Reassembler) (body : List Nat), st.buffer.length = COMMAND_SIZE →
      st.buf_length ≤ st.buffer.length → chunks ≠ [] → (∀ c ∈ chunks, c ≠ []) →
      st.buffer.take st.buf_length ++ chunks.flatten = body ++ [59] →
      body.length = 29 → (∀ b ∈ body, b ≠ 59) →
      (feed st chunks).m_queue = st.m_queue ∧ (feed st chunks).buf_length = 0
        ∧ (feed st chunks).m_signaled = st.m_signaled
        ∧ (feed st chunks).timer_arms = st.timer_arms := by
  induction chunks with
  | nil => intro st _ _ _ h; exact absurd rfl h
  | cons c cs ih =>
      intro st body hbuf hb _ hne hbody hlen hby
      have hc : c ≠ [] := hne c (List.mem_cons_self _ _)
      have hcs : ∀ x ∈ cs, x ≠ [] := fun x hx => hne x (List.mem_cons_of_mem _ hx)
      have htl : (st.buffer.take st.buf_length).length = st.buf_length := by
        simp [List.length_take, Nat.min_eq_left hb]
      have hjoin : (c :: cs).flatten = c ++ cs.flatten := rfl
      rw [hjoin] at hbody
      have hlen2 : st.buf_length + c.length + cs.flatten.length = 30 := by
        have := congrArg List.length hbody
        simp only [List.length_append, htl, List.length_singleton, hlen] at this
        omega
      have hfeed : feed st (c :: cs) = feed (ble_notification_cb true st (some c)) cs := rfl
      rw [hfeed]
      cases cs with
      | nil =>
          have h30 : COMMAND_SIZE ≤ st.buf_length + c.length := by
            simp only [List.flatten_nil, List.length_nil] at hlen2
            simp only [COMMAND_SIZE]; omega
          rw [cb_overflow true st c hc h30]
          exact ⟨rfl, rfl, rfl, rfl⟩
      | cons c2 cs2 =>
          have hj : (c2 :: cs2).flatten ≠ [] := by
            have hc2 : c2 ≠ [] := hcs c2 (List.mem_cons_self _ _)
            intro h0
            have : c2 ++ cs2.flatten = [] := h0
            exact hc2 (List.append_eq_nil.mp this).1
          have hjpos : 0 < (c2 :: cs2).flatten.length := List.length_pos.mpr hj
          have hfit : st.buf_length + c.length < COMMAND_SIZE := by
            simp only [COMMAND_SIZE]; omega
          rcases List.eq_nil_or_concat ((c2 :: cs2).flatten) with hnil | ⟨j2, l, hjl⟩
          · exact absurd hnil hj
          · rw [List.concat_eq_append] at hjl
            have hb2 : body = st.buffer.take st.buf_length ++ c ++ j2 := by
              have e : (st.buffer.take st.buf_length ++ c ++ j2) ++ [l] = body ++ [59] := by
                rw [← hbody, hjl]; simp
              exact (List.append_inj' e rfl).1.symm
            have hlast : c.getLast hc ≠ 59 := by
              have hm : c.getLast hc ∈ body := by
                rw [hb2]
                exact List.mem_append_left _ (List.mem_append_right _ (List.getLast_mem hc))
              exact hby _ hm
            rw [cb_append_open st c hc hb hfit hlast]
            have hbuflen := memcpy_length st.buffer c st.buf_length hbuf hfit
            have htake := memcpy_take st.buffer c st.buf_length hb
            have key := ih
              { st with buffer := memcpy st.buffer st.buf_length c c.length,
                        buf_length := st.buf_length + c.length }
              body hbuflen
              (by
                show st.buf_length + c.length ≤ (memcpy st.buffer st.buf_length c c.length).length
                rw [hbuflen]; omega)
              (by simp) hcs
              (by
                show (memcpy st.buffer st.buf_length c c.length).take (st.buf_length + c.length)
                  ++ (c2 :: cs2).flatten = body ++ [59]
                rw [htake, ← hbody, List.append_assoc])
              hlen hby
            exact key

/-- C12 as stated fails: a frame of exactly 30 bytes with its terminator,
delivered to the reassembler in its initial state, is not queued; the callback
only sets `buf_length` to 0. -/
theorem frame_of_30_bytes_is_dropped :
    frame_30.length = 30 ∧ frame_30.getLast? = some 59
      ∧ (feed Reassembler.init [frame_30]).m_queue = []
      ∧ feed Reassembler.init [frame_30] = Reassembler.init := by
  decide


/-- C12, amended. Maximum frame length: the longest frame the reassembler
accepts has 29 bytes including its terminator. A frame of at most 29 bytes
(no NUL byte, the terminator `;` last and nowhere else), fed to the reassembler
in its initial state in any non-empty chunks, yields exactly one queued command
that carries the frame, and `dequeue` hands this command to the consumer; the
command array then ends with a NUL byte, as `sscanf` needs it. A frame of
exactly 30 bytes, in any non-empty chunks, yields no command: the
queue stays empty, `buf_length` ends at 0, the consumer is not signalled and
the timer is not re-armed. -/
theorem max_frame_length (chunks : List (List Nat)) (body : List Nat)
    (hne : ∀ c ∈ chunks, c ≠ []) (hj : chunks.flatten = body ++ [59])
    (hb : ∀ b ∈ body, b ≠ 59 ∧ b ≠ 0) :
    (body.length ≤ 28 →
        feed Reassembler.init chunks
            = { buffer := zeros COMMAND_SIZE, buf_length := 0, m_queue := [pad (body ++ [59])],
                m_signaled := 1, timer_arms := 1 }
          ∧ (∀ cmd, dequeue [pad (body ++ [59])] cmd = ([], pad (body ++ [59])))
          ∧ (pad (body ++ [59])).length = 30 ∧ (pad (body ++ [59])).getLast? = some 0)
      ∧ (body.length = 29 →
          (feed Reassembler.init chunks).m_queue = []
            ∧ (feed Reassembler.init chunks).buf_length = 0
            ∧ (feed Reassembler.init chunks).m_signaled = 0
            ∧ (feed Reassembler.init chunks).timer_arms = 0) := by
  constructor
  · intro hlen
    refine ⟨feed_frame_clean Reassembler.init chunks (body ++ [59]) rfl rfl hne hj
      ⟨body, rfl, hlen, hb⟩, ?_, ?_, ?_⟩
    · intro cmd
      have hp : payload_ok (body ++ [59]) := by
        refine ⟨by simp only [List.length_append, List.length_singleton]; omega, ?_⟩
        intro b hbm
        rcases List.mem_append.mp hbm with h1 | h1
        · exact (hb b h1).2
        · rw [List.mem_singleton.mp h1]; decide
      show ([], strncpy COMMAND_SIZE (pad (body ++ [59]))) = ([], pad (body ++ [59]))
      rw [strncpy_pad _ hp]
    · simp only [pad, zeros, COMMAND_SIZE, List.length_append, List.length_singleton,
        List.length_replicate]
      omega
    · obtain ⟨k, hk⟩ : ∃ k, COMMAND_SIZE - (body ++ [59]).length = k + 1 := by
        refine ⟨28 - body.length, ?_⟩
        simp only [COMMAND_SIZE, List.length_append, List.length_singleton]
        omega
      simp only [pad, zeros, hk, List.replicate_succ', List.getLast?_append,
        List.getLast?_singleton]
      rfl
  · intro hlen
    have hch : chunks ≠ [] := by
      intro h
      rw [h] at hj
      simp at hj
    exact feed_frame_of_30 chunks Reassembler.init body rfl (Nat.zero_le _) hch hne
      (by
        show List.take 0 Reassembler.init.buffer ++ chunks.flatten = body ++ [59]
        rw [List.take_zero, List.nil_append, hj])
      hlen (fun b hbm => (hb b hbm).1)

/-- C12, amended, an instance: the frame `C1 2 3;` in the two chunks `C1 ` and
`2 3;`. -/
theorem max_frame_length_witness :
    feed Reassembler.init [[67, 49, 32], [50, 32, 51, 59]]
      = { buffer := zeros COMMAND_SIZE, buf_length := 0,
          m_queue := [pad ([67, 49, 32, 50, 32, 51] ++ [59])],
          m_signaled := 1, timer_arms := 1 } :=
  ((max_frame_length [[67, 49, 32], [50, 32, 51, 59]] [67, 49, 32, 50, 32, 51]
    (by decide) (by decide) (by decide)).1 (by decide)).1

/-! ## The invariant of the consumer -/

theorem arr_set_length (a : List ℚ) (i : Int) (v : ℚ) : (arr_set a i v).length = a.length := by
  unfold arr_set
  split_ifs
  · exact List.length_set _ _ _
  · rfl

/-- One command keeps the invariant. -/
theorem session_inv_route_command (s : Session) (cmd : List Nat) (h : session_inv s) :
    session_inv (route_command s cmd).1 := by
  obtain ⟨⟨h0, h8⟩, hm, hy, hp, hr⟩ := h
  have z8 : (0 : Int) ≤ 8 := by decide
  by_cases hA : cmd.getD 0 0 = 65
  · have e : (route_command s cmd).1 = { s with mode := STAB_SEQUENCE } := by
      simp only [route_command, hA, if_true, init_sequence]
    rw [e]
    exact ⟨⟨h0, h8⟩, Or.inr (Or.inr (Or.inl rfl)), hy, hp, hr⟩
  by_cases hB : cmd.getD 0 0 = 66 ∧ s.mode = STAB_SEQUENCE
  · have e : route_command s cmd = stab_sequence s cmd := by
      unfold route_command
      dsimp only
      rw [if_neg hA, if_pos hB]
    rw [e]
    exact ⟨⟨le_refl (0 : Int), z8⟩, Or.inr (Or.inr (Or.inr (Or.inl rfl))), hy, hp, hr⟩
  by_cases hC : cmd.getD 0 0 = 67 ∧ s.mode = CALIBRATION_SEQUENCE
  · have e : route_command s cmd = calibration_sequence s cmd := by
      unfold route_command
      dsimp only
      rw [if_neg hA, if_neg hB, if_pos hC]
    rw [e]
    have h9 : s.m_calib_point < 9 := by omega
    by_cases h88 : s.m_calib_point = 8
    · have e2 : (calibration_sequence s cmd).1
          = { compute_model { s with
                m_yaw := arr_set s.m_yaw s.m_calib_point (sscanf_lf3 (cmd.drop 1)).1
                m_pitch := arr_set s.m_pitch s.m_calib_point (sscanf_lf3 (cmd.drop 1)).2.1
                m_roll := arr_set s.m_roll s.m_calib_point (sscanf_lf3 (cmd.drop 1)).2.2 } with
              m_calib_point := 0, mode := GAME_SEQUENCE } := by
        unfold calibration_sequence
        dsimp only
        rw [if_pos h9, if_pos h88]
      rw [e2]
      refine ⟨⟨le_refl (0 : Int), z8⟩, Or.inr (Or.inr (Or.inr (Or.inr rfl))), ?_, ?_, ?_⟩
      · show (arr_set s.m_yaw s.m_calib_point _).length = 9
        rw [arr_set_length, hy]
      · show (arr_set s.m_pitch s.m_calib_point _).length = 9
        rw [arr_set_length, hp]
      · show (arr_set s.m_roll s.m_calib_point _).length = 9
        rw [arr_set_length, hr]
    · have e2 : (calibration_sequence s cmd).1
          = { s with
              m_yaw := arr_set s.m_yaw s.m_calib_point (sscanf_lf3 (cmd.drop 1)).1
              m_pitch := arr_set s.m_pitch s.m_calib_point (sscanf_lf3 (cmd.drop 1)).2.1
              m_roll := arr_set s.m_roll s.m_calib_point (sscanf_lf3 (cmd.drop 1)).2.2
              m_calib_point := s.m_calib_point + 1 } := by
        unfold calibration_sequence
        dsimp only
        rw [if_pos h9, if_neg h88]
      rw [e2]
      refine ⟨⟨?_, ?_⟩, hm, ?_, ?_, ?_⟩
      · show 0 ≤ s.m_calib_point + 1
        omega
      · show s.m_calib_point + 1 ≤ 8
        omega
      · show (arr_set s.m_yaw s.m_calib_point _).length = 9
        rw [arr_set_length, hy]
      · show (arr_set s.m_pitch s.m_calib_point _).length = 9
        rw [arr_set_length, hp]
      · show (arr_set s.m_roll s.m_calib_point _).length = 9
        rw [arr_set_length, hr]
  · have e : (route_command s cmd).1 = s := by
      unfold route_command
      dsimp only
      rw [if_neg hA, if_neg hB, if_neg hC]
      split_ifs <;> rfl
    rw [e]
    exact ⟨⟨h0, h8⟩, hm, hy, hp, hr⟩

/-- Any sequence of commands keeps the invariant. -/
theorem session_inv_route_commands (cmds : List (List Nat)) :
    ∀ s : Session, session_inv s → session_inv (route_commands s cmds).1 := by
  induction cmds with
  | nil => intro s h; exact h
  | cons c cs ih =>
      intro s h
      exact ih _ (session_inv_route_command s c h)

theorem session_inv_init (width height : Int) : session_inv (Session.init width height) :=
  ⟨⟨le_refl (0 : Int), (by decide : (0 : Int) ≤ 8)⟩, Or.inl rfl, rfl, rfl, rfl⟩


/-- C13. Calibration-index invariant: in every state reached from the initial
state (mode 0, index 0, any screen size) by any finite sequence of commands,
whatever their ids and payloads, the calibration index is between 0 and 8 and
the mode is one of 0, Init, Stabilizing, Calibrating, Playing. So in such a
state the index is a valid position of each of the three nine-element sample
arrays, a sample write there replaces exactly that element, and
`calibration_sequence` does not take its reset branch `index >= 9` (the test
`m_calib_point < 9` holds, and the call has an effect, which the reset branch
has not). -/
theorem calib_index_invariant (width height : Int) (cmds : List (List Nat)) :
    (0 ≤ (route_commands (Session.init width height) cmds).1.m_calib_point
      ∧ (route_commands (Session.init width height) cmds).1.m_calib_point ≤ 8)
    ∧ ((route_commands (Session.init width height) cmds).1.mode = 0
        ∨ (route_commands (Session.init width height) cmds).1.mode = INIT_SEQUENCE
        ∨ (route_commands (Session.init width height) cmds).1.mode = STAB_SEQUENCE
        ∨ (route_commands (Session.init width height) cmds).1.mode = CALIBRATION_SEQUENCE
        ∨ (route_commands (Session.init width height) cmds).1.mode = GAME_SEQUENCE)
    ∧ ((route_commands (Session.init width height) cmds).1.m_calib_point.toNat
          < (route_commands (Session.init width height) cmds).1.m_yaw.length
        ∧ (route_commands (Session.init width height) cmds).1.m_calib_point.toNat
          < (route_commands (Session.init width height) cmds).1.m_pitch.length
        ∧ (route_commands (Session.init width height) cmds).1.m_calib_point.toNat
          < (route_commands (Session.init width height) cmds).1.m_roll.length)
    ∧ (∀ (a : List ℚ) (v : ℚ),
        arr_set a (route_commands (Session.init width height) cmds).1.m_calib_point v
          = a.set (route_commands (Session.init width height) cmds).1.m_calib_point.toNat v)
    ∧ (route_commands (Session.init width height) cmds).1.m_calib_point < 9
    ∧ (∀ cmd : List Nat,
        (calibration_sequence (route_commands (Session.init width height) cmds).1 cmd).2 ≠ []) := by
  obtain ⟨⟨h0, h8⟩, hm, hy, hp, hr⟩ :=
    session_inv_route_commands cmds (Session.init width height) (session_inv_init width height)
  have h9 : (route_commands (Session.init width height) cmds).1.m_calib_point < 9 := by omega
  refine ⟨⟨h0, h8⟩, hm, ⟨?_, ?_, ?_⟩, ?_, h9, ?_⟩
  · rw [hy]; omega
  · rw [hp]; omega
  · rw [hr]; omega
  · intro a v
    unfold arr_set
    rw [if_pos h0]
  · intro cmd
    unfold calibration_sequence
    dsimp only
    rw [if_pos h9]
    split_ifs <;> simp

end Zapper
